import Mathlib

/-!
Verification development for the `SmartPanelBackup` (laravel-backup-tool) Go
repository.  Each Go function relevant to the frozen claims is shallowly
embedded as an executable Lean definition; file systems are modelled as flat
path-indexed association lists (the view `filepath.Walk` actually operates
on), Go strings as Lean `String`, machine I/O errors that the claims never
exercise are not modelled (documented per definition).
-/

/-! ### Go string primitives (strings.TrimSpace, Fields, Trim, …) -/

/-- Whitespace class used by Go `unicode.IsSpace` restricted to ASCII,
as consumed by `strings.TrimSpace` and `strings.Fields`. -/
def isGoSpace (c : Char) : Bool :=
  c = ' ' || c = '\t' || c = '\n' || c = '\x0b' || c = '\x0c' || c = '\r'

/-- Whitespace class of the Go regexp escape `\s` (`[\t\n\f\r ]`). -/
def isRegexSpace (c : Char) : Bool :=
  c = ' ' || c = '\t' || c = '\n' || c = '\x0c' || c = '\r'

/-- `strings.HasPrefix` (also used by `TrimPrefix`); character-level so that
it evaluates by kernel reduction. -/
def goStartsWith (s pre : String) : Bool :=
  pre.data.isPrefixOf s.data

/-- `strings.HasSuffix` (also used by `TrimSuffix`). -/
def goEndsWith (s suf : String) : Bool :=
  suf.data.isSuffixOf s.data

/-- `strings.TrimSpace`. -/
def goTrimSpace (s : String) : String :=
  ⟨((s.toList.dropWhile isGoSpace).reverse.dropWhile isGoSpace).reverse⟩

/-- `strings.Trim(s, cutset)`: drop leading and trailing characters
belonging to `cutset`. -/
def goTrimChars (cutset : List Char) (s : String) : String :=
  ⟨((s.toList.dropWhile (cutset.contains ·)).reverse.dropWhile
      (cutset.contains ·)).reverse⟩

/-- Field splitter underlying `strings.Fields`: `acc` accumulates the
current field in reverse. -/
def splitFieldsAux (p : Char → Bool) : List Char → List Char → List (List Char)
  | [], acc => if acc = [] then [] else [acc.reverse]
  | c :: cs, acc =>
    if p c then
      if acc = [] then splitFieldsAux p cs []
      else acc.reverse :: splitFieldsAux p cs []
    else splitFieldsAux p cs (c :: acc)

/-- `strings.Fields`: split around runs of whitespace, no empty fields. -/
def goFields (s : String) : List String :=
  (splitFieldsAux isGoSpace s.data []).map (fun cs => ⟨cs⟩)

/-- `strings.TrimPrefix(s, pre)`: drop `pre` when it leads `s`, else `s`. -/
def goDropLead (pre s : String) : String :=
  if goStartsWith s pre then ⟨s.data.drop pre.data.length⟩ else s

/-- `strings.TrimSuffix(s, suf)`: drop `suf` when it ends `s`, else `s`. -/
def goDropTrail (suf s : String) : String :=
  if goEndsWith s suf then ⟨s.data.take (s.data.length - suf.data.length)⟩ else s

/-- `strings.Contains(s, sub)`. -/
def goContains (s sub : String) : Bool :=
  s.toList.tails.any (fun t => sub.toList.isPrefixOf t)

/-! ### Timestamps (`time.Time` values of layout `2006-01-02_150405`) -/

/-- A wall-clock timestamp as carried in backup artifact names; the layout
`2006-01-02_150405` has second granularity, so six fields suffice. -/
structure Timestamp where
  year : Nat
  mon : Nat
  day : Nat
  hour : Nat
  minute : Nat
  sec : Nat
deriving DecidableEq

/-- `time.Time.After`: strict lexicographic comparison, newest-first. -/
def Timestamp.after (a b : Timestamp) : Bool :=
  if a.year ≠ b.year then b.year < a.year
  else if a.mon ≠ b.mon then b.mon < a.mon
  else if a.day ≠ b.day then b.day < a.day
  else if a.hour ≠ b.hour then b.hour < a.hour
  else if a.minute ≠ b.minute then b.minute < a.minute
  else decide (b.sec < a.sec)

/-- Gregorian leap-year rule, as validated by Go `time.Parse`. -/
def isLeapYear (y : Nat) : Bool :=
  y % 4 = 0 && (y % 100 ≠ 0 || y % 400 = 0)

/-- Days in a month, as validated by Go `time.Parse`. -/
def daysInMonth (y m : Nat) : Nat :=
  if m = 2 then (if isLeapYear y then 29 else 28)
  else if m = 4 || m = 6 || m = 9 || m = 11 then 30
  else 31

/-- Numeric value of a decimal digit character. -/
def digitVal (c : Char) : Nat := c.toNat - 48

/-- Go `time.Parse("2006-01-02_150405", s)`: fixed-width numeric fields with
calendar range validation; any deviation yields a parse error (`none`). -/
def parseBackupTime (s : String) : Option Timestamp :=
  match s.toList with
  | [y1, y2, y3, y4, s1, m1, m2, s2, d1, d2, s3, h1, h2, n1, n2, c1, c2] =>
    if (y1.isDigit && y2.isDigit && y3.isDigit && y4.isDigit &&
        m1.isDigit && m2.isDigit && d1.isDigit && d2.isDigit &&
        h1.isDigit && h2.isDigit && n1.isDigit && n2.isDigit &&
        c1.isDigit && c2.isDigit &&
        s1 = '-' && s2 = '-' && s3 = '_') then
      let y := ((digitVal y1 * 10 + digitVal y2) * 10 + digitVal y3) * 10 + digitVal y4
      let mo := digitVal m1 * 10 + digitVal m2
      let d := digitVal d1 * 10 + digitVal d2
      let h := digitVal h1 * 10 + digitVal h2
      let n := digitVal n1 * 10 + digitVal n2
      let c := digitVal c1 * 10 + digitVal c2
      if 1 ≤ mo && mo ≤ 12 && 1 ≤ d && d ≤ daysInMonth y mo &&
         h ≤ 23 && n ≤ 59 && c ≤ 59 then
        some ⟨y, mo, d, h, n, c⟩
      else none
    else none
  | _ => none

/-! ### C7 — SSH session pool (`getSession` / `releaseSession`, ssh.go) -/

/-- State of `SSHBackup`'s session machinery: `pool` is the buffered channel
`sessionPool` (FIFO, capacity `maxSessions`), `nextId` names the next session
`client.NewSession()` would open, `closed` records sessions closed by
`releaseSession`.  Sessions are identified by numbers. -/
structure PoolState where
  pool : List Nat
  maxSessions : Nat
  nextId : Nat
  closed : List Nat
deriving DecidableEq

/-- `SSHBackup.getSession` (ssh.go:152-160): non-blocking receive from the
pool channel; on an empty pool fall through to `client.NewSession()`. -/
def getSession (s : PoolState) : Nat × PoolState :=
  match s.pool with
  | h :: t => (h, { s with pool := t })
  | [] => (s.nextId, { s with nextId := s.nextId + 1 })

/-- `SSHBackup.releaseSession` (ssh.go:163-175): nil guard, then
non-blocking send into the pool channel; if the buffer is full, close the
session instead. -/
def releaseSession (s : PoolState) (sess : Option Nat) : PoolState :=
  match sess with
  | none => s
  | some h =>
    if s.pool.length < s.maxSessions then { s with pool := s.pool ++ [h] }
    else { s with closed := h :: s.closed }

/-! ### C6 — artifact creation effect order (`createArchive`, `BackupDatabase`) -/

/-- Observable state of the file at the final artifact destination path. -/
structure FileState where
  existsAtFinal : Bool
  contentComplete : Bool
deriving DecidableEq

/-- Effect order of `FileBackup.createArchive` (part_002:229-310):
`os.Create(targetFile)` runs first, putting a file at the final destination
path, and only then is the tar+gzip stream produced by the directory walk.
`walkOk` says whether the walk pipeline succeeds.  Result: final file state
and the success of the call. -/
def createArchiveRun (walkOk : Bool) : FileState × Bool :=
  let afterCreate : FileState := { existsAtFinal := true, contentComplete := false }
  if walkOk then ({ afterCreate with contentComplete := true }, true)
  else (afterCreate, false)

/-- Effect order of `DBBackup.BackupDatabase` (part_002:333-395):
`os.Create(backupFile)` at the final destination path, then `gzip.Start`,
then `mysqldump` (`cmd.Run`), then `gzip.Wait`; each may fail.  Result:
final file state and the success of the call. -/
def backupDatabaseRun (createOk gzipStartOk dumpOk gzipWaitOk : Bool) :
    FileState × Bool :=
  if !createOk then ({ existsAtFinal := false, contentComplete := false }, false)
  else
    let st : FileState := { existsAtFinal := true, contentComplete := false }
    if !gzipStartOk then (st, false)
    else if !dumpOk then (st, false)
    else if !gzipWaitOk then (st, false)
    else ({ st with contentComplete := true }, true)

/-! ### C8 / C10 — orchestration step order -/

/-- One observable unit of backup work inside a single site's processing. -/
inductive BStep where
  | compareCheck
  | createArchive
  | rotateFiles
  | dumpDB
  | rotateDB
  | transferFiles
  | transferDB
  | changeCheckRemote
deriving DecidableEq

/-- Steps of the local per-site file goroutine, `FileBackup.BackupFiles`
(part_002:195-226): change comparison, then — only when changed — archive
creation followed by file-kind rotation. -/
def localFileTask (changed : Bool) : List BStep :=
  BStep.compareCheck :: (if changed then [BStep.createArchive, BStep.rotateFiles] else [])

/-- Steps of the local per-site database goroutine,
`DBBackup.BackupDatabase` (part_002:333-395): dump, then db-kind rotation. -/
def localDBTask : List BStep :=
  [BStep.dumpDB, BStep.rotateDB]

/-- An interleaving of two concurrently running instruction streams, as the
Go scheduler may produce for the two `go func` goroutines that
`performLocalBackups` (part_004:84-110) spawns per site. -/
inductive Merge : List BStep → List BStep → List BStep → Prop where
  | nil : Merge [] [] []
  | left {x : BStep} {xs ys zs : List BStep} :
      Merge xs ys zs → Merge (x :: xs) ys (x :: zs)
  | right {y : BStep} {xs ys zs : List BStep} :
      Merge xs ys zs → Merge xs (y :: ys) (y :: zs)

/-- `strconv.Atoi`-style check `changedFiles == 0` plus the `if` ladder of
one loop iteration of `SSHBackup.BackupRemoteSites` (ssh.go:359-511),
success path: skip the site wholesale when a backup for today exists;
otherwise run the remote change check; when files changed, archive and
transfer, dump and transfer the database when `dbName`/`dbUser` are
non-empty, and finally rotate both kinds. -/
def remoteSiteStepsCore (hasToday : Bool) (changedFiles : Nat) (dbGate : Bool) :
    List BStep :=
  if hasToday then []
  else
    BStep.changeCheckRemote ::
      (if changedFiles = 0 then []
       else [BStep.createArchive, BStep.transferFiles] ++
         (if dbGate then [BStep.dumpDB, BStep.transferDB] else []) ++
         [BStep.rotateFiles, BStep.rotateDB])

/-- The today-check of `BackupRemoteSites` (ssh.go:369-382): any file in the
site's local backup directory whose name contains today's `YYYY-MM-DD`
date string. -/
def hasBackupToday (files : List String) (today : String) : Bool :=
  files.any (fun f => goContains f today)

/-- One loop iteration of `SSHBackup.BackupRemoteSites` with the today-check
computed from the local directory listing. -/
def remoteSiteSteps (files : List String) (today : String) (changedFiles : Nat)
    (dbGate : Bool) : List BStep :=
  remoteSiteStepsCore (hasBackupToday files today) changedFiles dbGate

/-- Steps of `SSHBackup.backupSite` (ssh.go:707-725): `backupRemoteFiles`
(archive, transfer, file-kind rotation, ssh.go:615-658), then — when
`DBName`/`DBUser` are non-empty — `backupRemoteDatabase` (dump, transfer,
db-kind rotation, ssh.go:661-704). -/
def backupSiteSteps (dbGate : Bool) : List BStep :=
  [BStep.createArchive, BStep.transferFiles, BStep.rotateFiles] ++
    (if dbGate then [BStep.dumpDB, BStep.transferDB, BStep.rotateDB] else [])

/-- "The file backup is attempted before the database backup is attempted":
if a database dump occurs in the schedule, some file-backup activity
(change comparison or archive creation) occurs strictly earlier. -/
def fileBeforeDB (l : List BStep) : Bool :=
  match l.findIdx? (fun s => s = BStep.dumpDB),
        l.findIdx? (fun s => s = BStep.compareCheck || s = BStep.createArchive
          || s = BStep.changeCheckRemote) with
  | some i, some j => decide (j < i)
  | some _, none => false
  | none, _ => true

/-- "File-kind rotation only after the file-artifact decision": if file
rotation occurs, archive creation occurs strictly earlier. -/
def rotAfterFile (l : List BStep) : Bool :=
  match l.findIdx? (fun s => s = BStep.rotateFiles),
        l.findIdx? (fun s => s = BStep.createArchive) with
  | some i, some j => decide (j < i)
  | some _, none => false
  | none, _ => true

/-- "Db-kind rotation only after the db-artifact decision": if both a dump
and db rotation occur, the dump occurs strictly earlier (a skipped dump may
still be followed by rotation). -/
def rotAfterDB (l : List BStep) : Bool :=
  match l.findIdx? (fun s => s = BStep.rotateDB),
        l.findIdx? (fun s => s = BStep.dumpDB) with
  | some i, some j => decide (j < i)
  | _, _ => true

/-! ### C4 / C5 — virtual-host discovery (`ParseApacheConfig`, `gatherSiteInfo`) -/

/-- Match of the anchored, case-insensitive directive regexps
`(?i)^\s*ServerName\s+(.+)` / `(?i)^\s*DocumentRoot\s+(.+)` against an
already-trimmed line, composed with the `strings.TrimSpace` that
`ParseApacheConfig` applies to the captured group.  The regex matches iff
the directive word leads the line (case-insensitively), is followed by at
least one whitespace character and at least one further character; after
the caller's `TrimSpace`, the captured value equals the whitespace-trimmed
remainder of the line. -/
def matchDirective (dir line : String) : Option String :=
  let rest := line.data.drop dir.data.length
  if (line.data.take dir.data.length).map Char.toLower =
        dir.data.map Char.toLower &&
      2 ≤ rest.length && isRegexSpace (rest.headD 'x') then
    some (goTrimSpace ⟨rest⟩)
  else none

/-- Go map assignment `m[k] = v`: replace the value when the key exists,
otherwise add the binding. -/
def mapUpsert (m : List (String × String)) (k v : String) :
    List (String × String) :=
  if m.any (fun e => e.1 = k) then
    m.map (fun e => if e.1 = k then (k, v) else e)
  else m ++ [(k, v)]

/-- Scanner loop of `config.ParseApacheConfig` (part_003:11-57): per line,
trim; skip comments and blanks; a `ServerName` match replaces the pending
name (and `continue`s); a `DocumentRoot` match is consulted only when a
pending name exists and then assigns `sites[currentServerName] =
Trim(root, quote-chars)` — without resetting the pending name. -/
def parseApacheLoop : List String → String → List (String × String) →
    List (String × String)
  | [], _, sites => sites
  | l :: rest, cur, sites =>
    let line := goTrimSpace l
    if goStartsWith line "#" || line = "" then parseApacheLoop rest cur sites
    else
      match matchDirective "ServerName" line with
      | some v => parseApacheLoop rest v sites
      | none =>
        if cur ≠ "" then
          match matchDirective "DocumentRoot" line with
          | some v =>
            parseApacheLoop rest cur (mapUpsert sites cur (goTrimChars ['"', '\''] v))
          | none => parseApacheLoop rest cur sites
        else parseApacheLoop rest cur sites

/-- `config.ParseApacheConfig`: the `map[string]string` from server name to
document root built from the configuration lines (the map is represented as
an association list in insertion order). -/
def ParseApacheConfig (lines : List String) : List (String × String) :=
  parseApacheLoop lines "" []

/-- `SiteInfo` (ssh.go:191-198). -/
structure SiteInfo where
  serverName : String
  docRoot : String
  dbHost : String
  dbName : String
  dbUser : String
  dbPass : String
deriving DecidableEq

/-- The zero value `SiteInfo{}`. -/
def SiteInfo.empty : SiteInfo := ⟨"", "", "", "", "", ""⟩

/-- The `.env` credential scan shared by `gatherSiteInfo` (ssh.go:305-316)
and `BackupRemoteSites` (ssh.go:466-477): per trimmed line, a
`DB_HOST=`/`DB_DATABASE=`/`DB_USERNAME=`/`DB_PASSWORD=` prefix fills the
corresponding field with the `TrimPrefix` remainder. -/
def parseEnvDB (ls : List String) (s : SiteInfo) : SiteInfo :=
  ls.foldl
    (fun s l =>
      let l := goTrimSpace l
      if goStartsWith l "DB_HOST=" then { s with dbHost := goDropLead "DB_HOST=" l }
      else if goStartsWith l "DB_DATABASE=" then { s with dbName := goDropLead "DB_DATABASE=" l }
      else if goStartsWith l "DB_USERNAME=" then { s with dbUser := goDropLead "DB_USERNAME=" l }
      else if goStartsWith l "DB_PASSWORD=" then { s with dbPass := goDropLead "DB_PASSWORD=" l }
      else s)
    s

/-- The `.env` credential fetch of `gatherSiteInfo` (ssh.go:296-318):
`envOf` models the remote `cat <root>/.env` (`none` when the session or the
read fails, in which case the pending site keeps empty credentials). -/
def gatherFillEnv (envOf : String → Option (List String)) (cur : SiteInfo) :
    SiteInfo :=
  match envOf cur.docRoot with
  | some els => parseEnvDB els cur
  | none => cur

/-- The map insertion of `gatherSiteInfo` (ssh.go:320-327): compute the
`serverName:docRoot` key, insert only when the key is absent, and
unconditionally reset the pending site to the zero value. -/
def gatherInsert (acc : List (String × SiteInfo)) (cur : SiteInfo) :
    SiteInfo × List (String × SiteInfo) :=
  if acc.any (fun e => e.1 = cur.serverName ++ ":" ++ cur.docRoot) then
    (SiteInfo.empty, acc)
  else (SiteInfo.empty, acc ++ [(cur.serverName ++ ":" ++ cur.docRoot, cur)])

/-- One line of the parsing loop of `SSHBackup.gatherSiteInfo`
(ssh.go:283-331), state = (pending `currentSite`, accumulated `sitesMap`):
a `ServerName` line replaces the pending name with the second field; a
`DocumentRoot` line sets the pending root and — when a name is pending —
fills the credentials and inserts the site, resetting the pending site. -/
def gatherStep (envOf : String → Option (List String))
    (st : SiteInfo × List (String × SiteInfo)) (rawLine : String) :
    SiteInfo × List (String × SiteInfo) :=
  if goStartsWith (goTrimSpace rawLine) "ServerName" then
    if 2 ≤ (goFields (goTrimSpace rawLine)).length then
      ({ st.1 with serverName := (goFields (goTrimSpace rawLine))[1]! }, st.2)
    else st
  else if goStartsWith (goTrimSpace rawLine) "DocumentRoot" then
    if 2 ≤ (goFields (goTrimSpace rawLine)).length then
      if st.1.serverName ≠ "" then
        gatherInsert st.2
          (gatherFillEnv envOf
            { st.1 with
              docRoot := goTrimChars ['"'] (goFields (goTrimSpace rawLine))[1]! })
      else
        ({ st.1 with
            docRoot := goTrimChars ['"'] (goFields (goTrimSpace rawLine))[1]! },
          st.2)
    else st
  else st

/-- The site map built by `SSHBackup.gatherSiteInfo` from the concatenated
configuration lines. -/
def gatherSites (envOf : String → Option (List String)) (lines : List String) :
    List (String × SiteInfo) :=
  (lines.foldl (gatherStep envOf) (SiteInfo.empty, [])).2

/-! ### C9 — database-credential gating -/

/-- `config.extractEnvValue` (part_003:137-149) on an env file given as its
list of lines: the `(?m)^KEY=(?:"([^"]*)"|'([^']*)'|([^\n\r]*))` regexp
selects the first line led by `KEY=`; a leading double/single quote with a
matching closing quote captures the quoted body, otherwise the whole
remainder of the line is captured; the first non-empty capture group is
returned whitespace-trimmed (an empty capture yields `""`, which
`TrimSpace` also yields, so the result is the trimmed chosen capture). -/
def extractEnvValue (ls : List String) (key : String) : String :=
  match ls.find? (fun l => goStartsWith l (key ++ "=")) with
  | none => ""
  | some l =>
    let v : List Char := l.data.drop (key.data.length + 1)
    let body := v.drop 1
    let chosen : List Char :=
      if v.headD 'x' = '"' && body.contains '"' then
        body.takeWhile (fun c => c ≠ '"')
      else if v.headD 'x' = '\'' && body.contains '\'' then
        body.takeWhile (fun c => c ≠ '\'')
      else v
    goTrimSpace ⟨chosen⟩

/-- `config.ParseLaravelEnv` (part_003:112-135): when no readable env file is
found, all four credentials are empty (and no error is reported); otherwise
the four `DB_*` keys are extracted from its lines. -/
def ParseLaravelEnv (envFile : Option (List String)) :
    String × String × String × String :=
  match envFile with
  | none => ("", "", "", "")
  | some ls =>
    (extractEnvValue ls "DB_HOST", extractEnvValue ls "DB_DATABASE",
     extractEnvValue ls "DB_USERNAME", extractEnvValue ls "DB_PASSWORD")

/-- The guard of `performLocalBackups` (part_004:96-109) deciding whether a
local database-backup goroutine is started for a site: all four parsed
credentials must be non-empty. -/
def localDBStarted (envFile : Option (List String)) : Bool :=
  match ParseLaravelEnv envFile with
  | (h, n, u, p) => h ≠ "" && n ≠ "" && u ≠ "" && p ≠ ""

/-- The guard of `SSHBackup.BackupRemoteSites` (ssh.go:463-481) deciding
whether a remote database dump is attempted: the `cat`-output must be
non-empty, and of the parsed credentials only `dbName` and `dbUser` must be
non-empty. -/
def remoteDBStarted (envOut : List String) : Bool :=
  if envOut ≠ [] then
    let s := parseEnvDB envOut SiteInfo.empty
    s.dbName ≠ "" && s.dbUser ≠ ""
  else false

/-! ### C1 — retention rotation (`BackupManager.cleanOldBackups`) -/

/-- A backup artifact as listed by rotation: its file name and its
filesystem modification time (seconds). -/
structure Artifact where
  name : String
  mtime : Nat
deriving DecidableEq

/-- "`a` is at least as recently modified as `b`" — the descending
modification-time sort order used by rotation. -/
def newerOrSame (a b : Artifact) : Prop := b.mtime ≤ a.mtime

instance : DecidableRel newerOrSame := fun a b => Nat.decLe b.mtime a.mtime

instance : IsTotal Artifact newerOrSame :=
  ⟨fun a b => Or.imp id id (Nat.le_total b.mtime a.mtime)⟩

instance : IsTrans Artifact newerOrSame :=
  ⟨fun _ _ _ hab hbc => Nat.le_trans hbc hab⟩

/-- Modelled from the spec: `BackupManager.cleanOldBackups(siteName, isDB)`
is called from part_002:225, part_002:390 and ssh.go:503-507 but the
`BackupManager` type itself is not part of the sources at hand.  Per
§4.6 (RetentionManager) the call lists the artifacts of the given kind for
the site (here passed directly as `arts`), is a no-op when their count is
at most the configured maximum for that kind (`maxKept`), and otherwise
sorts by modification time descending and deletes every entry beyond the
maximum, keeping the `maxKept` newest. -/
def cleanOldBackups (arts : List Artifact) (maxKept : Nat) : List Artifact :=
  if arts.length ≤ maxKept then arts
  else (List.insertionSort newerOrSame arts).take maxKept

/-- In a list sorted strictly by descending modification time, membership in
the first `k` elements is equivalent to having fewer than `k` strictly newer
elements in the whole list. -/
theorem mem_take_sorted_iff :
    ∀ (L : List Artifact), L.Pairwise (fun a b => b.mtime < a.mtime) →
    ∀ (k : Nat) (a : Artifact),
      a ∈ L.take k ↔
        a ∈ L ∧ L.countP (fun b => decide (a.mtime < b.mtime)) < k := by
  intro L hL
  induction L with
  | nil => intro k a; simp
  | cons x t ih =>
    rcases List.pairwise_cons.mp hL with ⟨hx, ht⟩
    intro k a
    cases k with
    | zero => simp
    | succ k =>
      rw [List.take_succ_cons]
      by_cases hax : a = x
      · subst hax
        have hct : t.countP (fun b => decide (a.mtime < b.mtime)) = 0 := by
          rw [List.countP_eq_zero]
          intro b hb
          have := hx b hb
          simp only [decide_eq_true_eq]
          omega
        simp [List.countP_cons, hct]
      · have h1 : a ∈ x :: t.take k ↔ a ∈ t.take k := by simp [hax]
        have h2 : a ∈ x :: t ↔ a ∈ t := by simp [hax]
        rw [h1, ih ht k a, h2, List.countP_cons]
        constructor
        · rintro ⟨hat, hcnt⟩
          have hxa : decide (a.mtime < x.mtime) = true := by
            simpa using hx a hat
          refine ⟨hat, ?_⟩
          rw [hxa, if_pos rfl]
          omega
        · rintro ⟨hat, hcnt⟩
          have hxa : decide (a.mtime < x.mtime) = true := by
            simpa using hx a hat
          rw [hxa, if_pos rfl] at hcnt
          exact ⟨hat, by omega⟩

/-- **C1** (spec-modelled rotation): for pairwise-distinct modification
times, after `cleanOldBackups` the number of surviving artifacts is at most
`maxKept`, and an artifact survives exactly when it was observed before
rotation and fewer than `maxKept` observed artifacts are strictly more
recently modified — i.e. the surviving set is exactly the `maxKept`
most-recently-modified artifacts. -/
theorem cleanOldBackups_keeps_most_recent (arts : List Artifact) (k : Nat)
    (hd : arts.Pairwise (fun a b => a.mtime ≠ b.mtime)) :
    (cleanOldBackups arts k).length ≤ k ∧
    ∀ a, a ∈ cleanOldBackups arts k ↔
      a ∈ arts ∧ arts.countP (fun b => decide (a.mtime < b.mtime)) < k := by
  unfold cleanOldBackups
  by_cases h : arts.length ≤ k
  · rw [if_pos h]
    refine ⟨h, fun a => ⟨fun ha => ⟨ha, ?_⟩, fun ha => ha.1⟩⟩
    have hle : arts.countP (fun b => decide (a.mtime < b.mtime)) ≤ arts.length :=
      List.countP_le_length _
    rcases Nat.lt_or_ge (arts.countP (fun b => decide (a.mtime < b.mtime)))
      arts.length with hlt | hge
    · omega
    · exfalso
      have heq : arts.countP (fun b => decide (a.mtime < b.mtime)) = arts.length := by
        omega
      have := (List.countP_eq_length.mp heq) a ha
      simp at this
  · rw [if_neg h]
    have hperm : List.Perm (List.insertionSort newerOrSame arts) arts :=
      List.perm_insertionSort newerOrSame arts
    have hsorted : (List.insertionSort newerOrSame arts).Pairwise newerOrSame :=
      List.sorted_insertionSort newerOrSame arts
    have hdL : (List.insertionSort newerOrSame arts).Pairwise
        (fun a b => a.mtime ≠ b.mtime) :=
      (hperm.pairwise_iff (fun hne => hne.symm)).mpr hd
    have hstrict : (List.insertionSort newerOrSame arts).Pairwise
        (fun a b => b.mtime < a.mtime) :=
      (hsorted.and hdL).imp (fun hp => Nat.lt_of_le_of_ne hp.1 hp.2.symm)
    refine ⟨List.length_take_le _ _, fun a => ?_⟩
    rw [mem_take_sorted_iff _ hstrict k a, hperm.mem_iff, hperm.countP_eq]

/-- Witness for C1 at a concrete artifact list. -/
theorem cleanOldBackups_keeps_most_recent_witness :
    ([⟨"a", 1⟩, ⟨"b", 3⟩, ⟨"c", 2⟩] : List Artifact).Pairwise
      (fun a b => a.mtime ≠ b.mtime) ∧
    (cleanOldBackups [⟨"a", 1⟩, ⟨"b", 3⟩, ⟨"c", 2⟩] 2).length ≤ 2 ∧
    (Artifact.mk "b" 3 ∈ cleanOldBackups [⟨"a", 1⟩, ⟨"b", 3⟩, ⟨"c", 2⟩] 2 ↔
      Artifact.mk "b" 3 ∈ ([⟨"a", 1⟩, ⟨"b", 3⟩, ⟨"c", 2⟩] : List Artifact) ∧
      ([⟨"a", 1⟩, ⟨"b", 3⟩, ⟨"c", 2⟩] : List Artifact).countP
        (fun b => decide ((Artifact.mk "b" 3).mtime < b.mtime)) < 2) :=
  ⟨by decide,
   (cleanOldBackups_keeps_most_recent [⟨"a", 1⟩, ⟨"b", 3⟩, ⟨"c", 2⟩] 2 (by decide)).1,
   (cleanOldBackups_keeps_most_recent [⟨"a", 1⟩, ⟨"b", 3⟩, ⟨"c", 2⟩] 2 (by decide)).2
     (Artifact.mk "b" 3)⟩

/-- **C6 counterexample**: a `mysqldump` failure after `os.Create` already
ran leaves the call failed yet a (partial) file present at the final
destination path, and likewise a walk failure in `createArchive`; the file
at the final destination therefore does not come into existence only after
the pipeline completed successfully. -/
theorem artifact_creation_atomicity_counterexample :
    (backupDatabaseRun true true false true).2 = false ∧
    (backupDatabaseRun true true false true).1.existsAtFinal = true ∧
    (backupDatabaseRun true true false true).1.contentComplete = false ∧
    (createArchiveRun false).2 = false ∧
    (createArchiveRun false).1.existsAtFinal = true ∧
    (createArchiveRun false).1.contentComplete = false := by
  decide

/-- **C6 (amended)**: both artifact producers create the file at the final
destination path first (once `os.Create` succeeds the file exists there no
matter how the rest of the pipeline fares); the call succeeds — and the
content is complete — exactly when every pipeline stage succeeds, so a
mid-pipeline failure leaves a partial file at the final path. -/
theorem artifact_creation_writes_final_path_first :
    ∀ g d w : Bool,
      (backupDatabaseRun true g d w).1.existsAtFinal = true ∧
      (backupDatabaseRun true g d w).2 = (g && d && w) ∧
      (backupDatabaseRun true g d w).1.contentComplete = (g && d && w) ∧
      (createArchiveRun w).1.existsAtFinal = true ∧
      (createArchiveRun w).2 = w ∧
      (createArchiveRun w).1.contentComplete = w := by
  decide

/-- **C7**: `getSession` hands out the oldest pooled handle when the pool is
non-empty and otherwise opens a fresh session (it is a total function — it
never blocks); `releaseSession` returns the handle to the pool exactly when
there is spare capacity and closes it otherwise; both operations preserve
`pool.length ≤ maxSessions`. -/
theorem sessionPool_discipline :
    (∀ (s : PoolState) (h : Nat) (t : List Nat), s.pool = h :: t →
      getSession s = (h, { s with pool := t })) ∧
    (∀ s : PoolState, s.pool = [] →
      getSession s = (s.nextId, { s with nextId := s.nextId + 1 })) ∧
    (∀ (s : PoolState) (h : Nat), s.pool.length < s.maxSessions →
      releaseSession s (some h) = { s with pool := s.pool ++ [h] }) ∧
    (∀ (s : PoolState) (h : Nat), ¬ s.pool.length < s.maxSessions →
      releaseSession s (some h) = { s with closed := h :: s.closed }) ∧
    (∀ (s : PoolState) (o : Option Nat), s.pool.length ≤ s.maxSessions →
      (getSession s).2.pool.length ≤ s.maxSessions ∧
      (releaseSession s o).pool.length ≤ s.maxSessions) := by
  refine ⟨?_, ?_, ?_, ?_, ?_⟩
  · intro s h t hp; simp [getSession, hp]
  · intro s hp; simp [getSession, hp]
  · intro s h hc; simp [releaseSession, hc]
  · intro s h hc; simp [releaseSession, hc]
  · intro s o hle
    constructor
    · rcases hp : s.pool with _ | ⟨h, t⟩
      · simp [getSession, hp]
      · rw [hp] at hle
        simp only [List.length_cons] at hle
        simp [getSession, hp]
        omega
    · rcases o with _ | h
      · simpa [releaseSession] using hle
      · by_cases hc : s.pool.length < s.maxSessions
        · simp [releaseSession, hc]
          omega
        · simpa [releaseSession, hc] using hle

/-- Witness for C7 at concrete pool states. -/
theorem sessionPool_discipline_witness :
    getSession ⟨[5, 6], 2, 9, []⟩ = (5, ⟨[6], 2, 9, []⟩) ∧
    getSession ⟨[], 2, 9, []⟩ = (9, ⟨[], 2, 10, []⟩) ∧
    releaseSession ⟨[5], 2, 9, []⟩ (some 7) = ⟨[5, 7], 2, 9, []⟩ ∧
    releaseSession ⟨[5, 6], 2, 9, []⟩ (some 7) = ⟨[5, 6], 2, 9, [7]⟩ ∧
    ((getSession ⟨[5, 6], 2, 9, []⟩).2.pool.length ≤ 2 ∧
      (releaseSession ⟨[5, 6], 2, 9, []⟩ (some 7)).pool.length ≤ 2) :=
  ⟨sessionPool_discipline.1 ⟨[5, 6], 2, 9, []⟩ 5 [6] rfl,
   sessionPool_discipline.2.1 ⟨[], 2, 9, []⟩ rfl,
   sessionPool_discipline.2.2.1 ⟨[5], 2, 9, []⟩ 7 (by decide),
   sessionPool_discipline.2.2.2.1 ⟨[5, 6], 2, 9, []⟩ 7 (by decide),
   sessionPool_discipline.2.2.2.2 ⟨[5, 6], 2, 9, []⟩ (some 7) (by decide)⟩

/-- **C8 counterexample**: the two goroutines `performLocalBackups` spawns
per site run concurrently, so the Go scheduler may run the whole database
unit before the file unit even starts — a legal interleaving in which the
file backup is not attempted before the database backup. -/
theorem local_file_db_concurrent_counterexample :
    Merge (localFileTask true) localDBTask
      [BStep.dumpDB, BStep.rotateDB, BStep.compareCheck, BStep.createArchive,
       BStep.rotateFiles] ∧
    fileBeforeDB
      [BStep.dumpDB, BStep.rotateDB, BStep.compareCheck, BStep.createArchive,
       BStep.rotateFiles] = false :=
  ⟨Merge.right (Merge.right (Merge.left (Merge.left (Merge.left Merge.nil)))),
   by decide⟩

/-- **C8 (amended)**: in remote mode (both the `BackupRemoteSites` loop and
`backupSite`) the file backup is attempted before the database backup and
each kind's rotation runs only after that kind's current-cycle artifact
decision; in local mode each unit is internally ordered the same way, but
the file and database units are concurrent goroutines with no mutual
ordering — both a db-first and a file-first interleaving are legal. -/
theorem site_ordering_amended :
    (∀ (ht : Bool) (c : Nat) (g : Bool),
      fileBeforeDB (remoteSiteStepsCore ht c g) = true ∧
      rotAfterFile (remoteSiteStepsCore ht c g) = true ∧
      rotAfterDB (remoteSiteStepsCore ht c g) = true) ∧
    (∀ g : Bool,
      fileBeforeDB (backupSiteSteps g) = true ∧
      rotAfterFile (backupSiteSteps g) = true ∧
      rotAfterDB (backupSiteSteps g) = true) ∧
    (∀ ch : Bool, rotAfterFile (localFileTask ch) = true) ∧
    rotAfterDB localDBTask = true ∧
    (∃ s, Merge (localFileTask true) localDBTask s ∧ fileBeforeDB s = false) ∧
    (∃ s, Merge (localFileTask true) localDBTask s ∧ fileBeforeDB s = true) := by
  refine ⟨?_, ?_, ?_, ?_, ?_, ?_⟩
  · intro ht c g
    cases ht <;> cases g <;> by_cases hc : c = 0 <;>
      simp only [remoteSiteStepsCore, hc, if_pos, if_neg, if_true, if_false,
        Bool.false_eq_true, not_false_eq_true] <;> decide
  · intro g; cases g <;> decide
  · intro ch; cases ch <;> decide
  · decide
  · exact ⟨[BStep.dumpDB, BStep.rotateDB, BStep.compareCheck,
      BStep.createArchive, BStep.rotateFiles],
      Merge.right (Merge.right (Merge.left (Merge.left (Merge.left Merge.nil)))),
      by decide⟩
  · exact ⟨[BStep.compareCheck, BStep.createArchive, BStep.rotateFiles,
      BStep.dumpDB, BStep.rotateDB],
      Merge.left (Merge.left (Merge.left (Merge.right (Merge.right Merge.nil)))),
      by decide⟩

/-- **C10**: when some file in the site's local backup directory contains
today's date in its name, the `BackupRemoteSites` iteration for that site
performs no step at all — no change check, no archive, no database dump. -/
theorem remote_skip_when_backup_exists_today
    (files : List String) (today : String) (changedFiles : Nat) (dbGate : Bool)
    (h : hasBackupToday files today = true) :
    remoteSiteSteps files today changedFiles dbGate = [] ∧
    ∀ st : BStep, st ∉ remoteSiteSteps files today changedFiles dbGate := by
  have : remoteSiteSteps files today changedFiles dbGate = [] := by
    simp [remoteSiteSteps, remoteSiteStepsCore, h]
  exact ⟨this, by simp [this]⟩

/-- Witness for C10 at a concrete directory listing and date. -/
theorem remote_skip_when_backup_exists_today_witness :
    hasBackupToday ["files_2025-02-11_130000.tar.gz"] "2025-02-11" = true ∧
    remoteSiteSteps ["files_2025-02-11_130000.tar.gz"] "2025-02-11" 3 true = [] :=
  ⟨by decide,
   (remote_skip_when_backup_exists_today ["files_2025-02-11_130000.tar.gz"]
     "2025-02-11" 3 true (by decide)).1⟩

/-- **C9**: a local database goroutine is started exactly when all four
credentials parsed from the env file are non-empty — in particular an empty
`DB_PASSWORD` value suppresses the local dump even with host, name and user
present — while the remote path requires only non-empty `dbName` and
`dbUser`. -/
theorem db_credential_gating :
    (∀ envFile : Option (List String),
      localDBStarted envFile = true ↔
        (ParseLaravelEnv envFile).1 ≠ "" ∧ (ParseLaravelEnv envFile).2.1 ≠ "" ∧
        (ParseLaravelEnv envFile).2.2.1 ≠ "" ∧
        (ParseLaravelEnv envFile).2.2.2 ≠ "") ∧
    (∀ ls : List String, extractEnvValue ls "DB_PASSWORD" = "" →
      localDBStarted (some ls) = false) ∧
    (∀ envOut : List String, envOut ≠ [] →
      (remoteDBStarted envOut = true ↔
        (parseEnvDB envOut SiteInfo.empty).dbName ≠ "" ∧
        (parseEnvDB envOut SiteInfo.empty).dbUser ≠ "")) ∧
    (localDBStarted
        (some ["DB_HOST=localhost", "DB_DATABASE=app", "DB_USERNAME=u",
          "DB_PASSWORD="]) = false ∧
      remoteDBStarted
        ["DB_HOST=localhost", "DB_DATABASE=app", "DB_USERNAME=u",
          "DB_PASSWORD="] = true) := by
  refine ⟨?_, ?_, ?_, by decide⟩
  · intro envFile
    rcases envFile with _ | ls
    · simp [localDBStarted, ParseLaravelEnv]
    · simp [localDBStarted, ParseLaravelEnv, and_assoc]
  · intro ls h
    simp [localDBStarted, ParseLaravelEnv, h]
  · intro envOut hne
    simp [remoteDBStarted, hne]

/-- Witness for C9's hypothesis-bearing parts at concrete env contents. -/
theorem db_credential_gating_witness :
    localDBStarted (some ["DB_PASSWORD="]) = false ∧
    (remoteDBStarted ["DB_DATABASE=app", "DB_USERNAME=u"] = true ↔
      (parseEnvDB ["DB_DATABASE=app", "DB_USERNAME=u"] SiteInfo.empty).dbName ≠ "" ∧
      (parseEnvDB ["DB_DATABASE=app", "DB_USERNAME=u"] SiteInfo.empty).dbUser ≠ "") :=
  ⟨db_credential_gating.2.1 ["DB_PASSWORD="] (by decide),
   db_credential_gating.2.2.1 ["DB_DATABASE=app", "DB_USERNAME=u"] (by decide)⟩

/-- Go map assignment preserves distinctness of the keys. -/
theorem mapUpsert_keys_nodup (m : List (String × String)) (k v : String)
    (h : (m.map Prod.fst).Nodup) : ((mapUpsert m k v).map Prod.fst).Nodup := by
  unfold mapUpsert
  by_cases hk : m.any (fun e => e.1 = k)
  · rw [if_pos hk]
    have heq : (m.map (fun e => if e.1 = k then (k, v) else e)).map Prod.fst =
        m.map Prod.fst := by
      rw [List.map_map]
      apply List.map_congr_left
      intro e _
      by_cases h1 : e.1 = k <;> simp [h1]
    rw [heq]
    exact h
  · rw [if_neg hk]
    rw [List.map_append]
    refine List.Nodup.append h (List.nodup_singleton _) ?_
    intro a ha hb
    simp only [List.map_cons, List.map_nil, List.mem_singleton] at hb
    subst hb
    rcases List.mem_map.mp ha with ⟨e, he, hek⟩
    exact hk (List.any_eq_true.mpr ⟨e, he, by simp [hek]⟩)

/-- The `ParseApacheConfig` scanner loop preserves distinctness of the map
keys (server names). -/
theorem parseApacheLoop_keys_nodup :
    ∀ (lines : List String) (cur : String) (sites : List (String × String)),
      (sites.map Prod.fst).Nodup →
      ((parseApacheLoop lines cur sites).map Prod.fst).Nodup := by
  intro lines
  induction lines with
  | nil => intro cur sites h; exact h
  | cons l rest ih =>
    intro cur sites h
    simp only [parseApacheLoop]
    repeat' split
    all_goals first
      | exact ih _ _ h
      | exact ih _ _ (mapUpsert_keys_nodup _ _ _ h)

/-- `gatherInsert` preserves distinctness of the site-map keys. -/
theorem gatherInsert_keys_nodup (acc : List (String × SiteInfo)) (cur : SiteInfo)
    (h : (acc.map Prod.fst).Nodup) :
    ((gatherInsert acc cur).2.map Prod.fst).Nodup := by
  unfold gatherInsert
  split
  · exact h
  · rename_i hkey
    rw [List.map_append]
    refine List.Nodup.append h (List.nodup_singleton _) ?_
    intro a ha hb
    simp only [List.map_cons, List.map_nil, List.mem_singleton] at hb
    subst hb
    rcases List.mem_map.mp ha with ⟨e, he, hek⟩
    exact hkey (List.any_eq_true.mpr ⟨e, he, by simp [hek]⟩)

/-- One `gatherSiteInfo` line preserves distinctness of the site-map keys. -/
theorem gatherStep_keys_nodup (envOf : String → Option (List String))
    (st : SiteInfo × List (String × SiteInfo)) (line : String)
    (h : (st.2.map Prod.fst).Nodup) :
    ((gatherStep envOf st line).2.map Prod.fst).Nodup := by
  unfold gatherStep
  repeat' split
  all_goals first
    | exact h
    | exact gatherInsert_keys_nodup _ _ h

/-- The `gatherSiteInfo` site map has pairwise-distinct `name:root` keys. -/
theorem gatherSites_keys_nodup (envOf : String → Option (List String))
    (lines : List String) : ((gatherSites envOf lines).map Prod.fst).Nodup := by
  suffices h : ∀ (ls : List String) (st : SiteInfo × List (String × SiteInfo)),
      (st.2.map Prod.fst).Nodup →
      ((ls.foldl (gatherStep envOf) st).2.map Prod.fst).Nodup by
    exact h lines (SiteInfo.empty, []) (by simp)
  intro ls
  induction ls with
  | nil => intro st h; exact h
  | cons l rest ih =>
    intro st h
    exact ih _ (gatherStep_keys_nodup envOf st l h)

/-- After inserting a site, `gatherStep` resets the pending site to the
zero value. -/
theorem gatherStep_reset (envOf : String → Option (List String))
    (st : SiteInfo × List (String × SiteInfo)) (line : String)
    (h1 : goStartsWith (goTrimSpace line) "ServerName" = false)
    (h2 : goStartsWith (goTrimSpace line) "DocumentRoot" = true)
    (h3 : 2 ≤ (goFields (goTrimSpace line)).length)
    (h4 : st.1.serverName ≠ "") :
    (gatherStep envOf st line).1 = SiteInfo.empty := by
  unfold gatherStep
  rw [if_neg (by simp [h1]), if_pos h2, if_pos h3, if_pos h4]
  unfold gatherInsert
  split <;> rfl

/-- With no pending name, `gatherStep` adds no site and leaves the pending
name empty. -/
theorem gatherStep_no_name (envOf : String → Option (List String))
    (st : SiteInfo × List (String × SiteInfo)) (line : String)
    (h1 : goStartsWith (goTrimSpace line) "ServerName" = false)
    (h2 : st.1.serverName = "") :
    (gatherStep envOf st line).2 = st.2 ∧
    (gatherStep envOf st line).1.serverName = "" := by
  unfold gatherStep
  rw [if_neg (by simp [h1])]
  split
  · split
    · rw [if_neg (by simp [h2])]
      exact ⟨rfl, h2⟩
    · exact ⟨rfl, h2⟩
  · exact ⟨rfl, h2⟩

/-- Without any `ServerName` line the remote parser discovers no site. -/
theorem gatherSites_no_name (envOf : String → Option (List String))
    (lines : List String)
    (h : ∀ l ∈ lines, goStartsWith (goTrimSpace l) "ServerName" = false) :
    gatherSites envOf lines = [] := by
  suffices hs : ∀ (ls : List String) (st : SiteInfo × List (String × SiteInfo)),
      (∀ l ∈ ls, goStartsWith (goTrimSpace l) "ServerName" = false) →
      st.1.serverName = "" →
      (ls.foldl (gatherStep envOf) st).2 = st.2 by
    exact hs lines (SiteInfo.empty, []) h rfl
  intro ls
  induction ls with
  | nil => intro st _ _; rfl
  | cons l rest ih =>
    intro st h hname
    have hstep := gatherStep_no_name envOf st l (h l (by simp)) hname
    have := ih (gatherStep envOf st l)
      (fun x hx => h x (List.mem_cons_of_mem _ hx)) hstep.2
    rw [List.foldl_cons, this, hstep.1]

/-- Without any `ServerName` directive the local parser discovers no site. -/
theorem parseApacheLoop_no_name :
    ∀ (lines : List String) (sites : List (String × String)),
      (∀ l ∈ lines, matchDirective "ServerName" (goTrimSpace l) = none) →
      parseApacheLoop lines "" sites = sites := by
  intro lines
  induction lines with
  | nil => intro sites _; rfl
  | cons l rest ih =>
    intro sites h
    have hl := h l (by simp)
    have hr := ih sites (fun x hx => h x (List.mem_cons_of_mem _ hx))
    simp only [parseApacheLoop, hl]
    split
    · exact hr
    · rw [if_neg (by simp)]
      exact hr

/-- **C4 counterexample**: `ParseApacheConfig` keys its map by server name
alone, so two observations with the same name and different document roots
collapse to a single entry (holding the later root) instead of remaining
two distinct sites. -/
theorem parseApacheConfig_same_name_counterexample :
    (ParseApacheConfig
      ["ServerName a", "DocumentRoot r1", "ServerName a",
        "DocumentRoot r2"]).length = 1 ∧
    ParseApacheConfig
      ["ServerName a", "DocumentRoot r1", "ServerName a", "DocumentRoot r2"] =
      [("a", "r2")] := by
  decide

/-- **C4 (amended)**: the remote discovery (`gatherSiteInfo`) deduplicates
by the `name:root` composite key — later identical observations are
discarded silently, keys stay pairwise distinct, and same-name sites with
different roots stay distinct entries; the local `ParseApacheConfig`
instead keys by server name alone (still one entry per name, and a repeat
of an identical pair is a no-op), so a same-name pair with a different root
overwrites rather than adding an entry. -/
theorem site_dedup_amended :
    (∀ (envOf : String → Option (List String)) (lines : List String),
      ((gatherSites envOf lines).map Prod.fst).Nodup) ∧
    (∀ lines : List String, ((ParseApacheConfig lines).map Prod.fst).Nodup) ∧
    gatherSites (fun _ => none)
      ["ServerName a", "DocumentRoot r1", "ServerName a", "DocumentRoot r1"] =
      [("a:r1", { SiteInfo.empty with serverName := "a", docRoot := "r1" })] ∧
    (gatherSites (fun _ => none)
      ["ServerName a", "DocumentRoot r1", "ServerName a",
        "DocumentRoot r2"]).length = 2 ∧
    ParseApacheConfig
      ["ServerName a", "DocumentRoot r1", "ServerName a", "DocumentRoot r1"] =
      [("a", "r1")] ∧
    ParseApacheConfig
      ["ServerName a", "DocumentRoot r1", "ServerName a", "DocumentRoot r2"] =
      [("a", "r2")] := by
  refine ⟨gatherSites_keys_nodup,
    fun lines => parseApacheLoop_keys_nodup lines "" [] (by simp),
    by decide, by decide, by decide, by decide⟩

/-- **C5 counterexample**: `ParseApacheConfig` does not reset the pending
name after pairing, so a stray `DocumentRoot` with no new `ServerName`
re-pairs with the previous name and overwrites that site's root. -/
theorem parseApacheConfig_stray_root_counterexample :
    ParseApacheConfig ["ServerName a", "DocumentRoot r1", "DocumentRoot r2"] =
      [("a", "r2")] ∧
    ParseApacheConfig ["ServerName a", "DocumentRoot r1", "DocumentRoot r2"] ≠
      [("a", "r1")] := by
  decide

/-- **C5 (amended)**: in the remote parser (`gatherSiteInfo`) a
document-root line yields a site only when a name is pending, the pending
site is reset after pairing, and with no name directive no site is ever
produced; the local `ParseApacheConfig` also yields sites only after a name
directive, but does not reset the pending name, so a stray document-root
line re-pairs with the previous site's name. -/
theorem vhost_pairing_amended :
    (∀ (envOf : String → Option (List String))
        (st : SiteInfo × List (String × SiteInfo)) (line : String),
      goStartsWith (goTrimSpace line) "ServerName" = false →
      goStartsWith (goTrimSpace line) "DocumentRoot" = true →
      2 ≤ (goFields (goTrimSpace line)).length →
      st.1.serverName ≠ "" →
      (gatherStep envOf st line).1 = SiteInfo.empty) ∧
    (∀ (envOf : String → Option (List String))
        (st : SiteInfo × List (String × SiteInfo)) (line : String),
      goStartsWith (goTrimSpace line) "ServerName" = false →
      st.1.serverName = "" →
      (gatherStep envOf st line).2 = st.2) ∧
    (∀ (envOf : String → Option (List String)) (lines : List String),
      (∀ l ∈ lines, goStartsWith (goTrimSpace l) "ServerName" = false) →
      gatherSites envOf lines = []) ∧
    (∀ lines : List String,
      (∀ l ∈ lines, matchDirective "ServerName" (goTrimSpace l) = none) →
      ParseApacheConfig lines = []) ∧
    ParseApacheConfig ["ServerName a", "DocumentRoot r1", "DocumentRoot r2"] =
      [("a", "r2")] := by
  refine ⟨gatherStep_reset, ?_, gatherSites_no_name, ?_, by decide⟩
  · intro envOf st line h1 h2
    exact (gatherStep_no_name envOf st line h1 h2).1
  · intro lines h
    exact parseApacheLoop_no_name lines [] h

/-- Witness for C5's hypothesis-bearing parts at concrete lines. -/
theorem vhost_pairing_amended_witness :
    (gatherStep (fun _ => none) ({ SiteInfo.empty with serverName := "a" }, [])
      "DocumentRoot r1").1 = SiteInfo.empty ∧
    (gatherStep (fun _ => none) (SiteInfo.empty, []) "DocumentRoot r2").2 = [] ∧
    gatherSites (fun _ => none) ["DocumentRoot r1"] = [] ∧
    ParseApacheConfig ["DocumentRoot r1"] = [] :=
  ⟨vhost_pairing_amended.1 (fun _ => none)
      ({ SiteInfo.empty with serverName := "a" }, []) "DocumentRoot r1"
      (by decide) (by decide) (by decide) (by decide),
   vhost_pairing_amended.2.1 (fun _ => none) (SiteInfo.empty, [])
      "DocumentRoot r2" (by decide) (by decide),
   vhost_pairing_amended.2.2.1 (fun _ => none) ["DocumentRoot r1"] (by decide),
   vhost_pairing_amended.2.2.2.1 ["DocumentRoot r1"] (by decide)⟩

/-! ### C2 / C3 — archive engine and change detector

The source tree is modelled the way `filepath.Walk` sees it: a flat map
from relative paths (`[]` = the walk root) to nodes, well-formed when keys
are distinct and every non-root path's parent is a directory of the map.
`filepath.Walk` visits every path except those strictly below a skipped
`node_modules` directory (the callback's `filepath.SkipDir`); its sorted
visit order is irrelevant to the claims, which are order-insensitive. -/

/-- A filesystem node as classified by `os.FileInfo` (`Lstat`-based, so
symlinks are their own class). -/
inductive SrcNode where
  | file (content : List Nat) (mtime : Timestamp)
  | dir (mtime : Timestamp)
  | symlink (target : String)
deriving DecidableEq

/-- A source file tree: relative path ↦ node. -/
abbrev SrcFS := List (List String × SrcNode)

/-- `info.IsDir()`. -/
def isDirNode : SrcNode → Bool
  | .dir _ => true
  | _ => false

/-- The node is a regular file with content `c`. -/
def nodeIsFile (n : SrcNode) (c : List Nat) : Bool :=
  match n with
  | .file c' _ => c' = c
  | _ => false

/-- Some directory entry of `src` sits at path `q`. -/
def hasDirAt (src : SrcFS) (q : List String) : Bool :=
  src.any (fun e => e.1 = q && isDirNode e.2)

/-- Well-formedness of a source tree: distinct paths, and every non-root
path hangs under a directory (true of any real directory tree walked with
`Lstat`: nothing sits below a file or a symlink). -/
structure WFSrc (src : SrcFS) : Prop where
  nodupKeys : (src.map Prod.fst).Nodup
  parentDir : ∀ e ∈ src, e.1 ≠ [] → hasDirAt src e.1.dropLast = true

/-- `info.Name()`: the base name of the visited path; the walk root reports
the base name of the source directory (`rootName`). -/
def pathName (rootName : String) (p : List String) : String :=
  p.getLast?.getD rootName

/-- The walk callback returns `filepath.SkipDir` at `q`: a directory named
`node_modules` (part_002:252-254 and part_002:82-84). -/
def isExcludedDirB (rootName : String) (src : SrcFS) (q : List String) : Bool :=
  pathName rootName q = "node_modules" && hasDirAt src q

/-- `p` lies strictly below a skipped directory, so the walk never visits
it. -/
def underExcludedB (rootName : String) (src : SrcFS) (p : List String) : Bool :=
  p.inits.any (fun q => q ≠ p && isExcludedDirB rootName src q)

/-- The paths `filepath.Walk` actually visits (the callback also runs on a
skipped `node_modules` directory itself — returning `SkipDir` — but not on
anything below it). -/
def walkVisited (rootName : String) (src : SrcFS) : SrcFS :=
  src.filter (fun e => !underExcludedB rootName src e.1)

/-- A tar entry as written by `createArchive`: header name = relative path,
plus the pieces of header state the rest of the program consumes (the mode
bits preserved in the header are read by nothing here and are elided). -/
inductive TarEntry where
  | dirEntry (path : List String) (mtime : Timestamp)
  | regEntry (path : List String) (content : List Nat) (mtime : Timestamp)
  | symlinkEntry (path : List String)
deriving DecidableEq

/-- The header name of an entry. -/
def TarEntry.path : TarEntry → List String
  | .dirEntry p _ => p
  | .regEntry p _ _ => p
  | .symlinkEntry p => p

/-- Entries that make `extractArchive` touch the scratch filesystem. -/
def TarEntry.isWrite : TarEntry → Bool
  | .symlinkEntry _ => false
  | _ => true

/-- The body of `createArchive`'s walk callback (part_002:246-303) for one
visited path: skip symlinks; skip the root (`relPath == "."`); a directory
named `node_modules` was already answered with `SkipDir` (no header);
otherwise write a header (and, for regular files, the streamed content). -/
def visitEntry (rootName : String) (p : List String) (n : SrcNode) :
    Option TarEntry :=
  match n with
  | .dir m =>
    if pathName rootName p = "node_modules" then none
    else if p = [] then none
    else some (.dirEntry p m)
  | .symlink _ => none
  | .file c m => if p = [] then none else some (.regEntry p c m)

/-- `FileBackup.createArchive` (part_002:229-310) as the list of tar
entries streamed into the gzip-compressed archive.  Filesystem write
effects of the call are the subject of `createArchiveRun`; this is the
produced container content. -/
def createArchive (rootName : String) (src : SrcFS) : List TarEntry :=
  (walkVisited rootName src).filterMap (fun e => visitEntry rootName e.1 e.2)

/-- A node of the extraction target directory (`os.Create` files carry the
copied bytes; `MkdirAll` directories carry nothing the program reads). -/
inductive XNode where
  | dir
  | file (content : List Nat)
deriving DecidableEq

/-- The extraction target directory: relative path ↦ node; the head entry
for a path is its current state (later writes shadow earlier ones). -/
abbrev XFS := List (List String × XNode)

/-- Look up the current node at `p`. -/
def xfind (fs : XFS) (p : List String) : Option XNode :=
  (fs.find? (fun e => e.1 = p)).map (fun e => e.2)

/-- One ancestor step of `os.MkdirAll`: create the directory unless the
path already exists. -/
def mkdirOne (fs : XFS) (p : List String) : XFS :=
  match xfind fs p with
  | some _ => fs
  | none => (p, XNode.dir) :: fs

/-- `os.MkdirAll(p)`: create every missing ancestor, shortest first, and
`p` itself. -/
def mkdirAll (fs : XFS) (p : List String) : XFS :=
  (p.inits.filter (fun q => q ≠ [])).foldl mkdirOne fs

/-- `FileBackup.extractArchive` (part_002:138-192): per entry in stream
order — skip symlink entries; `TypeDir` ⇒ `MkdirAll(target)`; `TypeReg` ⇒
`MkdirAll(Dir(target))` then `os.Create` + `io.Copy` (an existing file at
the target is truncated and rewritten); other entry types are ignored by
the `switch`.  I/O failures of the error-free scratch directory are not
modelled. -/
def exStep (fs : XFS) (e : TarEntry) : XFS :=
  match e with
  | .symlinkEntry _ => fs
  | .dirEntry p _ => mkdirAll fs p
  | .regEntry p c _ => (p, XNode.file c) :: mkdirAll fs p.dropLast

/-- The loop of `extractArchive` over the whole entry stream, started on the
fresh scratch directory. -/
def extractArchive (entries : List TarEntry) : XFS :=
  entries.foldl exStep []

/-- The looked-up node is a regular file. -/
def isFileOpt : Option XNode → Bool
  | some (.file _) => true
  | _ => false

/-- `os.Lstat(filepath.Join(tempDir, relPath))` against the extraction
result: a regular file at a proper ancestor makes the lookup fail with
`ENOTDIR` (not an `IsNotExist` error, so the walk callback propagates it,
part_002:104-111); a missing path is `IsNotExist`, reported as `none`. -/
def xlstat (fs : XFS) (p : List String) : Except Unit (Option XNode) :=
  if p.inits.any (fun q => q ≠ [] && q ≠ p && isFileOpt (xfind fs q)) then
    .error ()
  else .ok (xfind fs p)

/-- The body of `compareWithLastBackup`'s walk callback (part_002:76-128)
for one visited path of the source tree: skipped `node_modules` directories
and symlinks and the root contribute nothing; a missing backup path flags a
change; a type mismatch (`Mode()&ModeType`) flags a change; for regular
files, a modification time after the archive's timestamp or a size
difference flags a change; a non-`IsNotExist` `Lstat` error aborts. -/
def checkOne (rootName : String) (snap : XFS) (latest : Timestamp)
    (p : List String) (n : SrcNode) : Except Unit Bool :=
  match n with
  | .symlink _ => .ok false
  | .dir _ =>
    if pathName rootName p = "node_modules" then .ok false
    else if p = [] then .ok false
    else
      match xlstat snap p with
      | .error _ => .error ()
      | .ok none => .ok true
      | .ok (some (.file _)) => .ok true
      | .ok (some .dir) => .ok false
  | .file c m =>
    if p = [] then .ok false
    else
      match xlstat snap p with
      | .error _ => .error ()
      | .ok none => .ok true
      | .ok (some .dir) => .ok true
      | .ok (some (.file c2)) => .ok (m.after latest || c.length ≠ c2.length)

/-- The `filepath.Walk` of `compareWithLastBackup` over the visited paths:
the `changed` flag accumulates across the walk, and the first aborting
error stops it (whether some visited path errors — and the flag value
otherwise — does not depend on the visit order). -/
def compareFold (rootName : String) (snap : XFS) (latest : Timestamp) :
    SrcFS → Bool → Except Unit Bool
  | [], acc => .ok acc
  | e :: rest, acc =>
    match checkOne rootName snap latest e.1 e.2 with
    | .error _ => .error ()
    | .ok b => compareFold rootName snap latest rest (acc || b)

/-- One `os.DirEntry` of the site's backup directory, carrying — when it is
an archive file — the tar entries `extractArchive` would read from it. -/
structure BEntry where
  name : String
  isDir : Bool
  archive : List TarEntry
deriving DecidableEq

/-- The site's backup directory as `os.ReadDir` reports it: whether it
exists, and its entries (in `ReadDir`'s name order). -/
structure BackupDir where
  present : Bool
  entries : List BEntry

/-- The latest-backup scan of `compareWithLastBackup` (part_002:36-55):
skip directories and names without the `files_` prefix; parse the
timestamp from `TrimPrefix(TrimSuffix(name, ".tar.gz"), "files_")`,
skipping unparsable names; keep the entry with the latest timestamp
(`After` is strict, so the first of equal timestamps wins). -/
def findLatest (entries : List BEntry) : Option (BEntry × Timestamp) :=
  entries.foldl
    (fun acc e =>
      if e.isDir || !goStartsWith e.name "files_" then acc
      else
        match parseBackupTime (goDropLead "files_" (goDropTrail ".tar.gz" e.name)) with
        | none => acc
        | some t =>
          match acc with
          | none => some (e, t)
          | some (le, lt) => if t.after lt then some (e, t) else some (le, lt))
    none

/-- `FileBackup.compareWithLastBackup` (part_002:25-135): a missing backup
directory or no valid prior archive reports changed = `true`; otherwise the
latest archive is extracted to a scratch directory and the source tree is
walked against it.  Scratch-directory I/O failures (temp creation,
extraction) are not modelled. -/
def compareWithLastBackup (rootName : String) (bd : BackupDir) (src : SrcFS) :
    Except Unit Bool :=
  if !bd.present then .ok true
  else
    match findLatest bd.entries with
    | none => .ok true
    | some (e, t) =>
      compareFold rootName (extractArchive e.archive) t
        (walkVisited rootName src) false

/-- The regular file at `p` with content `c` is archived: non-root, present
in the tree, not below a skipped `node_modules` directory.  (A *file*
named `node_modules` is archived — only directories are skipped.) -/
def FileKept (rootName : String) (src : SrcFS) (p : List String)
    (c : List Nat) : Prop :=
  p ≠ [] ∧ src.any (fun e => e.1 = p && nodeIsFile e.2 c) = true ∧
    underExcludedB rootName src p = false

/-- The directory at `p` is archived: non-root, present, not below a
skipped directory, and not itself named `node_modules`. -/
def DirKept (rootName : String) (src : SrcFS) (p : List String) : Prop :=
  p ≠ [] ∧ hasDirAt src p = true ∧ underExcludedB rootName src p = false ∧
    pathName rootName p ≠ "node_modules"

/-- In a list with distinct projections, two members with equal projection
are equal. -/
theorem nodup_proj_eq {α β : Type} (f : α → β) :
    ∀ {l : List α}, (l.map f).Nodup → ∀ {a b : α}, a ∈ l → b ∈ l →
      f a = f b → a = b := by
  intro l
  induction l with
  | nil => intro _ a b ha; simp at ha
  | cons x t ih =>
    intro h a b ha hb hf
    rw [List.map_cons, List.nodup_cons] at h
    rcases List.mem_cons.mp ha with rfl | hat
    · rcases List.mem_cons.mp hb with rfl | hbt
      · rfl
      · exact absurd (List.mem_map.mpr ⟨b, hbt, hf.symm⟩) h.1
    · rcases List.mem_cons.mp hb with rfl | hbt
      · exact absurd (List.mem_map.mpr ⟨a, hat, hf⟩) h.1
      · exact ih h.2 hat hbt hf

/-- `hasDirAt` unfolded to a membership statement. -/
theorem hasDirAt_iff (src : SrcFS) (q : List String) :
    hasDirAt src q = true ↔ ∃ m, (q, SrcNode.dir m) ∈ src := by
  unfold hasDirAt
  rw [List.any_eq_true]
  constructor
  · rintro ⟨e, he, hcond⟩
    rw [Bool.and_eq_true, decide_eq_true_eq] at hcond
    rcases e with ⟨q', n⟩
    rcases n with _ | m | _ <;> simp [isDirNode] at hcond
    rw [hcond] at he
    exact ⟨m, he⟩
  · rintro ⟨m, hm⟩
    exact ⟨(q, SrcNode.dir m), hm, by simp [isDirNode]⟩

/-- The `any`-form of "a regular file with content `c` sits at `p`". -/
theorem fileAt_iff (src : SrcFS) (p : List String) (c : List Nat) :
    src.any (fun e => e.1 = p && nodeIsFile e.2 c) = true ↔
      ∃ m, (p, SrcNode.file c m) ∈ src := by
  rw [List.any_eq_true]
  constructor
  · rintro ⟨e, he, hcond⟩
    rw [Bool.and_eq_true, decide_eq_true_eq] at hcond
    rcases e with ⟨q', n⟩
    rcases n with ⟨c', m⟩ | _ | _ <;> simp [nodeIsFile] at hcond
    · rw [hcond.1, hcond.2] at he
      exact ⟨m, he⟩
  · rintro ⟨m, hm⟩
    exact ⟨(p, SrcNode.file c m), hm, by simp [nodeIsFile]⟩

/-- A proper prefix is a prefix of the parent. -/
theorem prefix_dropLast {q p : List String} (hq : q <+: p) (hne : q ≠ p) :
    q <+: p.dropLast := by
  rcases hq with ⟨r, rfl⟩
  rcases r with _ | ⟨x, r'⟩
  · simp at hne
  · rw [List.dropLast_append_cons]
    exact ⟨(x :: r').dropLast, rfl⟩

/-- A proper prefix is strictly shorter. -/
theorem prefix_length_lt {q p : List String} (hq : q <+: p) (hne : q ≠ p) :
    q.length < p.length := by
  rcases Nat.lt_or_ge q.length p.length with h | h
  · exact h
  · exact absurd (hq.eq_of_length_le h) hne

/-- In a well-formed tree every proper non-root ancestor of a present path
is a directory of the tree. -/
theorem ancestor_dir (src : SrcFS) (hwf : WFSrc src) :
    ∀ (k : Nat) (p : List String) (n : SrcNode), p.length ≤ k →
      (p, n) ∈ src → ∀ q, q <+: p → q ≠ p → q ≠ [] →
      hasDirAt src q = true := by
  intro k
  induction k with
  | zero =>
    intro p n hl hm q hq hne _
    have := prefix_length_lt hq hne
    omega
  | succ k ih =>
    intro p n hl hm q hq hne hnil
    have hlt := prefix_length_lt hq hne
    have hpne : p ≠ [] := by
      intro h
      subst h
      simp at hlt
    have hparent := hwf.parentDir (p, n) hm hpne
    have hqd : q <+: p.dropLast := prefix_dropLast hq hne
    by_cases hqe : q = p.dropLast
    · subst hqe
      exact hparent
    · rcases (hasDirAt_iff src p.dropLast).mp hparent with ⟨m, hmem⟩
      have hdl : p.dropLast.length ≤ k := by
        have : p.dropLast.length = p.length - 1 := List.length_dropLast p
        omega
      exact ih p.dropLast (SrcNode.dir m) hdl hmem q hqd hqe hnil

/-- Being below a skipped directory is inherited by extensions. -/
theorem underExcluded_mono (rootName : String) (src : SrcFS)
    {q p : List String} (hq : q <+: p)
    (h : underExcludedB rootName src q = true) :
    underExcludedB rootName src p = true := by
  unfold underExcludedB at h ⊢
  rw [List.any_eq_true] at h ⊢
  rcases h with ⟨r, hr, hcond⟩
  rw [Bool.and_eq_true, decide_eq_true_eq] at hcond
  have hrq : r <+: q := (List.mem_inits r q).mp hr
  refine ⟨r, (List.mem_inits r p).mpr (hrq.trans hq), ?_⟩
  rw [Bool.and_eq_true, decide_eq_true_eq]
  refine ⟨?_, hcond.2⟩
  intro hrp
  subst hrp
  exact hcond.1 (hrq.eq_of_length_le (hq.length_le))

/-- A prefix of a visited path is visited. -/
theorem underExcluded_anti (rootName : String) (src : SrcFS)
    {q p : List String} (hq : q <+: p)
    (h : underExcludedB rootName src p = false) :
    underExcludedB rootName src q = false := by
  by_contra hne
  rw [Bool.not_eq_false] at hne
  rw [underExcluded_mono rootName src hq hne] at h
  cases h

/-- A proper prefix of a visited path that is a directory is not named
`node_modules`. -/
theorem visited_prefix_name (rootName : String) (src : SrcFS)
    {q p : List String} (hq : q <+: p) (hne : q ≠ p)
    (hdir : hasDirAt src q = true)
    (h : underExcludedB rootName src p = false) :
    pathName rootName q ≠ "node_modules" := by
  intro hname
  have : underExcludedB rootName src p = true := by
    unfold underExcludedB
    rw [List.any_eq_true]
    refine ⟨q, (List.mem_inits q p).mpr hq, ?_⟩
    simp [hne, isExcludedDirB, hname, hdir]
  rw [this] at h
  cases h

/-- Every entry the walk callback emits carries the visited relative path,
which is never the root. -/
theorem visitEntry_path (rootName : String) (p : List String) (n : SrcNode)
    (t : TarEntry) (h : visitEntry rootName p n = some t) :
    t.path = p ∧ p ≠ [] ∧ t.isWrite = true := by
  rcases n with ⟨c, m⟩ | m | tgt
  · by_cases hp : p = [] <;> simp [visitEntry, hp] at h
    rw [← h]
    exact ⟨rfl, hp, rfl⟩
  · by_cases h1 : pathName rootName p = "node_modules" <;>
      by_cases hp : p = [] <;> simp [visitEntry, h1, hp] at h
    rw [← h]
    exact ⟨rfl, hp, rfl⟩
  · simp [visitEntry] at h

/-- A regular-file entry is archived exactly for the kept files. -/
theorem regEntry_mem_create (rootName : String) (src : SrcFS)
    (p : List String) (c : List Nat) (m : Timestamp) :
    TarEntry.regEntry p c m ∈ createArchive rootName src ↔
      (p, SrcNode.file c m) ∈ src ∧ p ≠ [] ∧
      underExcludedB rootName src p = false := by
  unfold createArchive
  rw [List.mem_filterMap]
  constructor
  · rintro ⟨e, he, hve⟩
    rw [walkVisited, List.mem_filter, Bool.not_eq_true'] at he
    rcases e with ⟨q, n⟩
    rcases n with ⟨c', m'⟩ | m' | tgt
    · by_cases hq : q = [] <;> simp [visitEntry, hq] at hve
      obtain ⟨rfl, rfl, rfl⟩ := hve
      exact ⟨he.1, hq, he.2⟩
    · by_cases h1 : pathName rootName q = "node_modules" <;>
        by_cases hq : q = [] <;> simp [visitEntry, h1, hq] at hve
    · simp [visitEntry] at hve
  · rintro ⟨hmem, hp, hunder⟩
    refine ⟨(p, SrcNode.file c m), ?_, ?_⟩
    · rw [walkVisited, List.mem_filter, Bool.not_eq_true']
      exact ⟨hmem, hunder⟩
    · simp [visitEntry, hp]

/-- A directory entry is archived exactly for the kept directories. -/
theorem dirEntry_mem_create (rootName : String) (src : SrcFS)
    (p : List String) (m : Timestamp) :
    TarEntry.dirEntry p m ∈ createArchive rootName src ↔
      (p, SrcNode.dir m) ∈ src ∧ p ≠ [] ∧
      pathName rootName p ≠ "node_modules" ∧
      underExcludedB rootName src p = false := by
  unfold createArchive
  rw [List.mem_filterMap]
  constructor
  · rintro ⟨e, he, hve⟩
    rw [walkVisited, List.mem_filter, Bool.not_eq_true'] at he
    rcases e with ⟨q, n⟩
    rcases n with ⟨c', m'⟩ | m' | tgt
    · by_cases hq : q = [] <;> simp [visitEntry, hq] at hve
    · by_cases h1 : pathName rootName q = "node_modules" <;>
        by_cases hq : q = [] <;> simp [visitEntry, h1, hq] at hve
      obtain ⟨rfl, rfl⟩ := hve
      exact ⟨he.1, hq, h1, he.2⟩
    · simp [visitEntry] at hve
  · rintro ⟨hmem, hp, hname, hunder⟩
    refine ⟨(p, SrcNode.dir m), ?_, ?_⟩
    · rw [walkVisited, List.mem_filter, Bool.not_eq_true']
      exact ⟨hmem, hunder⟩
    · simp [visitEntry, hp, hname]

/-- No symlink entry is ever archived. -/
theorem symlinkEntry_not_mem_create (rootName : String) (src : SrcFS)
    (p : List String) : TarEntry.symlinkEntry p ∉ createArchive rootName src := by
  intro h
  unfold createArchive at h
  rw [List.mem_filterMap] at h
  rcases h with ⟨e, _, hve⟩
  rcases e with ⟨q, n⟩
  rcases n with ⟨c', m'⟩ | m' | tgt
  · by_cases hq : q = [] <;> simp [visitEntry, hq] at hve
  · by_cases h1 : pathName rootName q = "node_modules" <;>
      by_cases hq : q = [] <;> simp [visitEntry, h1, hq] at hve
  · simp [visitEntry] at hve

/-- The hypotheses under which `extractArchive` faithfully materializes an
entry list: distinct header paths, no write entry at the archive root, and
every proper ancestor of a write entry present as a directory entry
(exactly what `createArchive` produces on a well-formed tree). -/
structure EntriesOK (E : List TarEntry) : Prop where
  nodupPaths : (E.map TarEntry.path).Nodup
  writeNonRoot : ∀ e ∈ E, e.isWrite = true → e.path ≠ []
  ancClosed : ∀ e ∈ E, e.isWrite = true → ∀ q, q <+: e.path → q ≠ [] →
    q ≠ e.path → ∃ m, TarEntry.dirEntry q m ∈ E

/-- The archived paths are a sublist of the tree's paths. -/
theorem create_paths_sublist (rootName : String) :
    ∀ l : SrcFS,
      List.Sublist
        ((l.filterMap (fun e => visitEntry rootName e.1 e.2)).map TarEntry.path)
        (l.map Prod.fst) := by
  intro l
  induction l with
  | nil => simp
  | cons e t ih =>
    rw [List.filterMap_cons]
    cases hve : visitEntry rootName e.1 e.2 with
    | none => exact ih.cons e.1
    | some t' =>
      rw [List.map_cons, List.map_cons,
        (visitEntry_path rootName e.1 e.2 t' hve).1]
      exact ih.cons₂ e.1

/-- `createArchive` on a well-formed tree satisfies the extraction
hypotheses. -/
theorem create_entriesOK (rootName : String) (src : SrcFS) (hwf : WFSrc src) :
    EntriesOK (createArchive rootName src) := by
  refine ⟨?_, ?_, ?_⟩
  · have h1 := create_paths_sublist rootName (walkVisited rootName src)
    have h2 : List.Sublist ((walkVisited rootName src).map Prod.fst)
        (src.map Prod.fst) :=
      (List.filter_sublist _).map _
    exact List.Nodup.sublist (h1.trans h2) hwf.nodupKeys
  · intro e he _
    rcases List.mem_filterMap.mp he with ⟨x, _, hvx⟩
    rcases visitEntry_path rootName x.1 x.2 e hvx with ⟨hpath, hne, _⟩
    rw [hpath]
    exact hne
  · intro e he _ q hq hqnil hqne
    rcases List.mem_filterMap.mp he with ⟨x, hx, hvx⟩
    rw [walkVisited, List.mem_filter, Bool.not_eq_true'] at hx
    rcases visitEntry_path rootName x.1 x.2 e hvx with ⟨hpath, hxne, _⟩
    rw [hpath] at hq hqne
    have hxmem : (x.1, x.2) ∈ src := hx.1
    have hdir : hasDirAt src q = true :=
      ancestor_dir src hwf x.1.length x.1 x.2 (Nat.le_refl _) hxmem q hq hqne hqnil
    rcases (hasDirAt_iff src q).mp hdir with ⟨mq, hmq⟩
    refine ⟨mq, (dirEntry_mem_create rootName src q mq).mpr
      ⟨hmq, hqnil, ?_, underExcluded_anti rootName src hq hx.2⟩⟩
    exact visited_prefix_name rootName src hq hqne hdir hx.2

/-- Lookup against a freshly written entry. -/
theorem xfind_cons (q : List String) (v : XNode) (fs : XFS) (p : List String) :
    xfind ((q, v) :: fs) p = if q = p then some v else xfind fs p := by
  by_cases h : q = p
  · subst h
    simp [xfind, List.find?]
  · simp [xfind, List.find?, h]

/-- `mkdirOne` never creates or destroys a regular file. -/
theorem mkdirOne_isFile (fs : XFS) (q p : List String) :
    isFileOpt (xfind (mkdirOne fs q) p) = isFileOpt (xfind fs p) := by
  unfold mkdirOne
  cases h : xfind fs q with
  | some v => rfl
  | none =>
    rw [xfind_cons]
    by_cases hpq : q = p
    · subst hpq
      rw [if_pos rfl, h]
      rfl
    · rw [if_neg hpq]

/-- Folding `mkdirOne` over a list of file-free paths makes exactly those
paths directories and changes nothing else. -/
theorem mkdirList_spec :
    ∀ (L : List (List String)) (fs : XFS),
      (∀ q ∈ L, isFileOpt (xfind fs q) = false) →
      ∀ p, xfind (L.foldl mkdirOne fs) p =
        if p ∈ L then some XNode.dir else xfind fs p := by
  intro L
  induction L with
  | nil => intro fs _ p; simp
  | cons q L' ih =>
    intro fs h p
    rw [List.foldl_cons]
    have hq := h q (by simp)
    have h' : ∀ r ∈ L', isFileOpt (xfind (mkdirOne fs q) r) = false := by
      intro r hr
      rw [mkdirOne_isFile]
      exact h r (List.mem_cons_of_mem _ hr)
    rw [ih (mkdirOne fs q) h' p]
    by_cases hpL : p ∈ L'
    · rw [if_pos hpL, if_pos (List.mem_cons_of_mem _ hpL)]
    · rw [if_neg hpL]
      by_cases hpq : p = q
      · subst hpq
        rw [if_pos (List.mem_cons_self _ _)]
        unfold mkdirOne
        cases hf : xfind fs p with
        | none => rw [xfind_cons, if_pos rfl]
        | some v =>
          cases v with
          | dir => exact hf
          | file c => rw [hf] at hq; simp [isFileOpt] at hq
      · rw [if_neg (by simp [List.mem_cons, hpq, hpL])]
        unfold mkdirOne
        cases hf : xfind fs q with
        | some v => rfl
        | none => rw [xfind_cons, if_neg (fun hh => hpq hh.symm)]

/-- `os.MkdirAll` on a target whose ancestors hold no regular file: the
target and all its ancestors become directories, everything else is
untouched. -/
theorem mkdirAll_spec (fs : XFS) (d : List String)
    (h : ∀ q, q <+: d → q ≠ [] → isFileOpt (xfind fs q) = false) :
    ∀ p, xfind (mkdirAll fs d) p =
      if p <+: d ∧ p ≠ [] then some XNode.dir else xfind fs p := by
  intro p
  unfold mkdirAll
  have hyp : ∀ q ∈ d.inits.filter (fun q => q ≠ []),
      isFileOpt (xfind fs q) = false := by
    intro q hq
    rw [List.mem_filter] at hq
    exact h q ((List.mem_inits q d).mp hq.1) (by simpa using hq.2)
  rw [mkdirList_spec _ fs hyp p]
  by_cases hc : p <+: d ∧ p ≠ []
  · rw [if_pos (List.mem_filter.mpr
      ⟨(List.mem_inits p d).mpr hc.1, by simp [hc.2]⟩), if_pos hc]
  · rw [if_neg (fun hmem => hc
      ⟨(List.mem_inits p d).mp (List.mem_filter.mp hmem).1,
        by simpa using (List.mem_filter.mp hmem).2⟩), if_neg hc]

/-- With distinct header paths, no earlier entry shares the current entry's
path. -/
theorem path_fresh (E P rest : List TarEntry) (e : TarEntry)
    (hnod : (E.map TarEntry.path).Nodup) (hE : P ++ e :: rest = E) :
    ∀ x ∈ P, x.path ≠ e.path := by
  intro x hx heq
  rw [← hE, List.map_append, List.map_cons] at hnod
  rcases List.nodup_append.mp hnod with ⟨_, _, hdisj⟩
  exact hdisj (List.mem_map.mpr ⟨x, hx, rfl⟩)
    (heq ▸ List.mem_cons_self _ _)

/-- The extraction invariant after processing the entries `P`: files sit
exactly at processed regular-file entries, directories exactly at processed
directory entries or at proper non-root ancestors of processed write
entries. -/
def ExInv (P : List TarEntry) (s : XFS) : Prop :=
  (∀ p c, xfind s p = some (XNode.file c) ↔
    ∃ m, TarEntry.regEntry p c m ∈ P) ∧
  (∀ p, xfind s p = some XNode.dir ↔
    ((∃ m, TarEntry.dirEntry p m ∈ P) ∨
     ∃ e ∈ P, e.isWrite = true ∧ p <+: e.path ∧ p ≠ [] ∧ p ≠ e.path))

/-- Under the invariant, no ancestor (nor the path itself) of the current
write entry holds a regular file. -/
theorem no_file_at_prefix (E P rest : List TarEntry) (e : TarEntry) (s : XFS)
    (hok : EntriesOK E) (hE : P ++ e :: rest = E) (hinv : ExInv P s)
    (hwrite : e.isWrite = true) :
    ∀ q, q <+: e.path → q ≠ [] → isFileOpt (xfind s q) = false := by
  intro q hq hqnil
  cases hf : xfind s q with
  | none => rfl
  | some v =>
    cases v with
    | dir => rfl
    | file c =>
      exfalso
      rcases (hinv.1 q c).mp hf with ⟨m, hreg⟩
      have hregE : TarEntry.regEntry q c m ∈ E := by
        rw [← hE]
        exact List.mem_append.mpr (Or.inl hreg)
      have heE : e ∈ E := by
        rw [← hE]
        exact List.mem_append.mpr (Or.inr (List.mem_cons_self _ _))
      by_cases hqe : q = e.path
      · exact path_fresh E P rest e hok.nodupPaths hE _ hreg hqe
      · rcases hok.ancClosed e heE hwrite q hq hqnil hqe with ⟨md, hdir⟩
        have := nodup_proj_eq TarEntry.path hok.nodupPaths hregE hdir rfl
        cases this

/-- Processing one entry preserves the extraction invariant. -/
theorem exStep_inv (E P rest : List TarEntry) (e : TarEntry) (s : XFS)
    (hok : EntriesOK E) (hE : P ++ e :: rest = E) (hinv : ExInv P s) :
    ExInv (P ++ [e]) (exStep s e) := by
  have heE : e ∈ E := by
    rw [← hE]
    exact List.mem_append.mpr (Or.inr (List.mem_cons_self _ _))
  cases e with
  | symlinkEntry q =>
    refine ⟨?_, ?_⟩
    · intro p c
      rw [show exStep s (TarEntry.symlinkEntry q) = s from rfl, hinv.1 p c]
      constructor
      · rintro ⟨m, hm⟩
        exact ⟨m, List.mem_append.mpr (Or.inl hm)⟩
      · rintro ⟨m, hm⟩
        rcases List.mem_append.mp hm with hm | hm
        · exact ⟨m, hm⟩
        · simp at hm
    · intro p
      rw [show exStep s (TarEntry.symlinkEntry q) = s from rfl, hinv.2 p]
      constructor
      · rintro (⟨m, hm⟩ | ⟨x, hx, hw, h1, h2, h3⟩)
        · exact Or.inl ⟨m, List.mem_append.mpr (Or.inl hm)⟩
        · exact Or.inr ⟨x, List.mem_append.mpr (Or.inl hx), hw, h1, h2, h3⟩
      · rintro (⟨m, hm⟩ | ⟨x, hx, hw, h1, h2, h3⟩)
        · rcases List.mem_append.mp hm with hm | hm
          · exact Or.inl ⟨m, hm⟩
          · simp at hm
        · rcases List.mem_append.mp hx with hx | hx
          · exact Or.inr ⟨x, hx, hw, h1, h2, h3⟩
          · rw [List.mem_singleton] at hx
            subst hx
            simp [TarEntry.isWrite] at hw
  | dirEntry d md =>
    have hwrite : TarEntry.isWrite (TarEntry.dirEntry d md) = true := rfl
    have hdne : d ≠ [] := hok.writeNonRoot _ heE hwrite
    have hnof : ∀ q, q <+: d → q ≠ [] → isFileOpt (xfind s q) = false :=
      no_file_at_prefix E P rest _ s hok hE hinv hwrite
    have hspec := mkdirAll_spec s d hnof
    refine ⟨?_, ?_⟩
    · intro p c
      show xfind (mkdirAll s d) p = some (XNode.file c) ↔ _
      rw [hspec p]
      by_cases hc : p <+: d ∧ p ≠ []
      · rw [if_pos hc]
        constructor
        · intro hh
          simp at hh
        · rintro ⟨m, hm⟩
          exfalso
          rcases List.mem_append.mp hm with hm | hm
          · have hregE : TarEntry.regEntry p c m ∈ E := by
              rw [← hE]
              exact List.mem_append.mpr (Or.inl hm)
            by_cases hpd : p = d
            · exact path_fresh E P rest _ hok.nodupPaths hE _ hm hpd
            · rcases hok.ancClosed _ heE hwrite p hc.1 hc.2 hpd with ⟨m2, hd2⟩
              exact absurd
                (nodup_proj_eq TarEntry.path hok.nodupPaths hregE hd2 rfl)
                (by simp)
          · simp at hm
      · rw [if_neg hc, hinv.1 p c]
        constructor
        · rintro ⟨m, hm⟩
          exact ⟨m, List.mem_append.mpr (Or.inl hm)⟩
        · rintro ⟨m, hm⟩
          rcases List.mem_append.mp hm with hm | hm
          · exact ⟨m, hm⟩
          · simp at hm
    · intro p
      show xfind (mkdirAll s d) p = some XNode.dir ↔ _
      rw [hspec p]
      by_cases hc : p <+: d ∧ p ≠ []
      · rw [if_pos hc]
        constructor
        · intro _
          by_cases hpd : p = d
          · refine Or.inl ⟨md, List.mem_append.mpr (Or.inr ?_)⟩
            rw [List.mem_singleton, hpd]
          · exact Or.inr ⟨TarEntry.dirEntry d md,
              List.mem_append.mpr (Or.inr (List.mem_singleton.mpr rfl)),
              rfl, hc.1, hc.2, hpd⟩
        · intro _
          rfl
      · rw [if_neg hc, hinv.2 p]
        constructor
        · rintro (⟨m, hm⟩ | ⟨x, hx, hw, h1, h2, h3⟩)
          · exact Or.inl ⟨m, List.mem_append.mpr (Or.inl hm)⟩
          · exact Or.inr ⟨x, List.mem_append.mpr (Or.inl hx), hw, h1, h2, h3⟩
        · rintro (⟨m, hm⟩ | ⟨x, hx, hw, h1, h2, h3⟩)
          · rcases List.mem_append.mp hm with hm | hm
            · exact Or.inl ⟨m, hm⟩
            · rw [List.mem_singleton] at hm
              exfalso
              have hpd : p = d ∧ m = md := by
                constructor <;> injection hm
              exact hc ⟨hpd.1 ▸ List.prefix_refl _, hpd.1 ▸ hdne⟩
          · rcases List.mem_append.mp hx with hx | hx
            · exact Or.inr ⟨x, hx, hw, h1, h2, h3⟩
            · rw [List.mem_singleton] at hx
              subst hx
              exact absurd ⟨h1, h2⟩ hc
  | regEntry r c0 mr =>
    have hwrite : TarEntry.isWrite (TarEntry.regEntry r c0 mr) = true := rfl
    have hrne : r ≠ [] := hok.writeNonRoot _ heE hwrite
    have hnof : ∀ q, q <+: r → q ≠ [] → isFileOpt (xfind s q) = false :=
      no_file_at_prefix E P rest _ s hok hE hinv hwrite
    have hnof2 : ∀ q, q <+: r.dropLast → q ≠ [] → isFileOpt (xfind s q) = false :=
      fun q hq hqn => hnof q (hq.trans (List.dropLast_prefix r)) hqn
    have hspec := mkdirAll_spec s r.dropLast hnof2
    refine ⟨?_, ?_⟩
    · intro p c
      show xfind ((r, XNode.file c0) :: mkdirAll s r.dropLast) p = _ ↔ _
      rw [xfind_cons]
      by_cases hpr : r = p
      · subst hpr
        rw [if_pos rfl]
        constructor
        · intro hh
          simp only [Option.some.injEq, XNode.file.injEq] at hh
          subst hh
          exact ⟨mr, List.mem_append.mpr (Or.inr (List.mem_singleton.mpr rfl))⟩
        · rintro ⟨m, hm⟩
          rcases List.mem_append.mp hm with hm | hm
          · exact absurd rfl
              (path_fresh E P rest _ hok.nodupPaths hE
                (TarEntry.regEntry r c m) hm)
          · rw [List.mem_singleton] at hm
            have : c = c0 ∧ m = mr := by constructor <;> injection hm
            rw [this.1]
      · rw [if_neg hpr, hspec p]
        by_cases hc : p <+: r.dropLast ∧ p ≠ []
        · rw [if_pos hc]
          constructor
          · intro hh
            simp at hh
          · rintro ⟨m, hm⟩
            exfalso
            have hpr2 : p ≠ r := fun h => hpr h.symm
            have hprefix : p <+: r := hc.1.trans (List.dropLast_prefix r)
            rcases List.mem_append.mp hm with hm | hm
            · have hregE : TarEntry.regEntry p c m ∈ E := by
                rw [← hE]
                exact List.mem_append.mpr (Or.inl hm)
              rcases hok.ancClosed _ heE hwrite p hprefix hc.2 hpr2 with ⟨m2, hd2⟩
              exact absurd
                (nodup_proj_eq TarEntry.path hok.nodupPaths hregE hd2 rfl)
                (by simp)
            · rw [List.mem_singleton] at hm
              exact hpr2 (by injection hm)
        · rw [if_neg hc, hinv.1 p c]
          constructor
          · rintro ⟨m, hm⟩
            exact ⟨m, List.mem_append.mpr (Or.inl hm)⟩
          · rintro ⟨m, hm⟩
            rcases List.mem_append.mp hm with hm | hm
            · exact ⟨m, hm⟩
            · rw [List.mem_singleton] at hm
              exact absurd (by injection hm : p = r) (fun h => hpr h.symm)
    · intro p
      show xfind ((r, XNode.file c0) :: mkdirAll s r.dropLast) p = _ ↔ _
      rw [xfind_cons]
      by_cases hpr : r = p
      · subst hpr
        rw [if_pos rfl]
        constructor
        · intro hh
          simp at hh
        · rintro (⟨m, hm⟩ | ⟨x, hx, hw, h1, h2, h3⟩)
          · exfalso
            rcases List.mem_append.mp hm with hm | hm
            · exact path_fresh E P rest _ hok.nodupPaths hE _ hm rfl
            · rw [List.mem_singleton] at hm
              simp at hm
          · exfalso
            rcases List.mem_append.mp hx with hx | hx
            · have hxE : x ∈ E := by
                rw [← hE]
                exact List.mem_append.mpr (Or.inl hx)
              rcases hok.ancClosed x hxE hw r h1 h2 h3 with ⟨m2, hd2⟩
              exact absurd
                (nodup_proj_eq TarEntry.path hok.nodupPaths heE hd2 rfl)
                (by simp)
            · rw [List.mem_singleton] at hx
              subst hx
              exact h3 rfl
      · rw [if_neg hpr, hspec p]
        by_cases hc : p <+: r.dropLast ∧ p ≠ []
        · rw [if_pos hc]
          constructor
          · intro _
            exact Or.inr ⟨TarEntry.regEntry r c0 mr,
              List.mem_append.mpr (Or.inr (List.mem_singleton.mpr rfl)),
              rfl, hc.1.trans (List.dropLast_prefix r), hc.2,
              fun h => hpr h.symm⟩
          · intro _
            rfl
        · rw [if_neg hc, hinv.2 p]
          constructor
          · rintro (⟨m, hm⟩ | ⟨x, hx, hw, h1, h2, h3⟩)
            · exact Or.inl ⟨m, List.mem_append.mpr (Or.inl hm)⟩
            · exact Or.inr ⟨x, List.mem_append.mpr (Or.inl hx), hw, h1, h2, h3⟩
          · rintro (⟨m, hm⟩ | ⟨x, hx, hw, h1, h2, h3⟩)
            · rcases List.mem_append.mp hm with hm | hm
              · exact Or.inl ⟨m, hm⟩
              · rw [List.mem_singleton] at hm
                simp at hm
            · rcases List.mem_append.mp hx with hx | hx
              · exact Or.inr ⟨x, hx, hw, h1, h2, h3⟩
              · rw [List.mem_singleton] at hx
                subst hx
                exact absurd ⟨prefix_dropLast h1 h3, h2⟩ hc

/-- The invariant carried over the whole entry stream. -/
theorem extract_inv (E : List TarEntry) (hok : EntriesOK E) :
    ∀ (suffix P : List TarEntry) (s : XFS), P ++ suffix = E → ExInv P s →
      ExInv E (suffix.foldl exStep s) := by
  intro suffix
  induction suffix with
  | nil =>
    intro P s hE hinv
    rw [List.append_nil] at hE
    subst hE
    exact hinv
  | cons e rest ih =>
    intro P s hE hinv
    rw [List.foldl_cons]
    have hE2 : (P ++ [e]) ++ rest = E := by rw [← hE]; simp
    exact ih (P ++ [e]) (exStep s e) hE2 (exStep_inv E P rest e s hok hE hinv)

/-- Extraction materializes exactly the entries of a well-behaved stream:
a file where a regular-file entry was read, a directory where a directory
entry was read, nothing else. -/
theorem extract_char (E : List TarEntry) (hok : EntriesOK E) :
    (∀ p c, xfind (extractArchive E) p = some (XNode.file c) ↔
      ∃ m, TarEntry.regEntry p c m ∈ E) ∧
    (∀ p, xfind (extractArchive E) p = some XNode.dir ↔
      ∃ m, TarEntry.dirEntry p m ∈ E) := by
  have hbase : ExInv [] ([] : XFS) := by
    constructor
    · intro p c
      simp [xfind]
    · intro p
      simp [xfind]
  have h := extract_inv E hok E [] [] (by simp) hbase
  refine ⟨h.1, fun p => ?_⟩
  have h2 := h.2 p
  constructor
  · intro hx
    rcases h2.mp hx with h1 | ⟨x, hxm, hw, h1, hb, h3⟩
    · exact h1
    · exact hok.ancClosed x hxm hw p h1 hb h3
  · intro h1
    exact h2.mpr (Or.inl h1)

/-- Round-trip, file part: the extracted scratch tree holds a regular file
with content `c` at `p` exactly for the kept files of the source tree. -/
theorem extract_create_file (rootName : String) (src : SrcFS) (hwf : WFSrc src)
    (p : List String) (c : List Nat) :
    xfind (extractArchive (createArchive rootName src)) p =
      some (XNode.file c) ↔ FileKept rootName src p c := by
  rw [(extract_char _ (create_entriesOK rootName src hwf)).1 p c]
  unfold FileKept
  rw [fileAt_iff]
  constructor
  · rintro ⟨m, hm⟩
    rcases (regEntry_mem_create rootName src p c m).mp hm with ⟨h1, h2, h3⟩
    exact ⟨h2, ⟨m, h1⟩, h3⟩
  · rintro ⟨h2, ⟨m, h1⟩, h3⟩
    exact ⟨m, (regEntry_mem_create rootName src p c m).mpr ⟨h1, h2, h3⟩⟩

/-- Round-trip, directory part. -/
theorem extract_create_dir (rootName : String) (src : SrcFS) (hwf : WFSrc src)
    (p : List String) :
    xfind (extractArchive (createArchive rootName src)) p = some XNode.dir ↔
      DirKept rootName src p := by
  rw [(extract_char _ (create_entriesOK rootName src hwf)).2 p]
  unfold DirKept
  constructor
  · rintro ⟨m, hm⟩
    rcases (dirEntry_mem_create rootName src p m).mp hm with ⟨h1, h2, h3, h4⟩
    exact ⟨h2, (hasDirAt_iff src p).mpr ⟨m, h1⟩, h4, h3⟩
  · rintro ⟨h2, hdir, h4, h3⟩
    rcases (hasDirAt_iff src p).mp hdir with ⟨m, h1⟩
    exact ⟨m, (dirEntry_mem_create rootName src p m).mpr ⟨h1, h2, h3, h4⟩⟩

instance (rootName : String) (src : SrcFS) (p : List String) (c : List Nat) :
    Decidable (FileKept rootName src p c) := by
  unfold FileKept
  infer_instance

instance (rootName : String) (src : SrcFS) (p : List String) :
    Decidable (DirKept rootName src p) := by
  unfold DirKept
  infer_instance

/-- **C3**: extracting the archive produced by `createArchive` reproduces
exactly the non-symlink regular files outside skipped `node_modules`
directories — same relative path, same content bytes — and exactly the
kept directory structure; nothing is extracted for symlinks (no symlink
entry is even archived) or for anything below a skipped directory. -/
theorem archive_roundTrip (rootName : String) (src : SrcFS) (hwf : WFSrc src) :
    (∀ p c, xfind (extractArchive (createArchive rootName src)) p =
      some (XNode.file c) ↔ FileKept rootName src p c) ∧
    (∀ p, xfind (extractArchive (createArchive rootName src)) p =
      some XNode.dir ↔ DirKept rootName src p) ∧
    (∀ p, TarEntry.symlinkEntry p ∉ createArchive rootName src) :=
  ⟨fun p c => extract_create_file rootName src hwf p c,
   fun p => extract_create_dir rootName src hwf p,
   fun p => symlinkEntry_not_mem_create rootName src p⟩

/-- A small sample tree: a kept file, a skipped `node_modules` subtree, a
skipped symlink, and a kept subdirectory. -/
def sampleTree : SrcFS :=
  [([], SrcNode.dir ⟨2025, 2, 11, 13, 0, 0⟩),
   (["a"], SrcNode.file [1, 2] ⟨2025, 2, 11, 12, 0, 0⟩),
   (["node_modules"], SrcNode.dir ⟨2025, 2, 11, 12, 0, 0⟩),
   (["node_modules", "x"], SrcNode.file [9] ⟨2025, 2, 11, 12, 0, 0⟩),
   (["s"], SrcNode.symlink "a"),
   (["sub"], SrcNode.dir ⟨2025, 2, 11, 12, 0, 0⟩),
   (["sub", "b"], SrcNode.file [3] ⟨2025, 2, 11, 12, 0, 0⟩)]

/-- Witness for C3 at the sample tree. -/
theorem archive_roundTrip_witness :
    WFSrc sampleTree ∧
    (xfind (extractArchive (createArchive "site" sampleTree)) ["a"] =
      some (XNode.file [1, 2]) ↔ FileKept "site" sampleTree ["a"] [1, 2]) ∧
    FileKept "site" sampleTree ["a"] [1, 2] ∧
    (xfind (extractArchive (createArchive "site" sampleTree))
      ["node_modules", "x"] = some (XNode.file [9]) ↔
      FileKept "site" sampleTree ["node_modules", "x"] [9]) ∧
    ¬ FileKept "site" sampleTree ["node_modules", "x"] [9] :=
  ⟨⟨by decide, by decide⟩,
   (archive_roundTrip "site" sampleTree ⟨by decide, by decide⟩).1 ["a"] [1, 2],
   by decide,
   (archive_roundTrip "site" sampleTree ⟨by decide, by decide⟩).1
     ["node_modules", "x"] [9],
   by decide⟩

/-- The flag one visited path contributes to the walk. -/
def checkFlag (rootName : String) (snap : XFS) (latest : Timestamp)
    (e : List String × SrcNode) : Bool :=
  match checkOne rootName snap latest e.1 e.2 with
  | .ok b => b
  | .error _ => false

/-- When no visited path aborts, the walk returns the disjunction of the
per-path flags. -/
theorem compareFold_eq (rootName : String) (snap : XFS) (latest : Timestamp) :
    ∀ (l : SrcFS) (acc : Bool),
      (∀ e ∈ l, checkOne rootName snap latest e.1 e.2 ≠ Except.error ()) →
      compareFold rootName snap latest l acc =
        .ok (acc || l.any (checkFlag rootName snap latest)) := by
  intro l
  induction l with
  | nil => intro acc _; simp [compareFold]
  | cons e rest ih =>
    intro acc h
    have he := h e (by simp)
    cases hce : checkOne rootName snap latest e.1 e.2 with
    | error u => cases u; exact absurd hce he
    | ok b =>
      simp only [compareFold, hce]
      rw [ih (acc || b) (fun x hx => h x (List.mem_cons_of_mem _ hx)),
        List.any_cons]
      have hflag : checkFlag rootName snap latest e = b := by
        simp [checkFlag, hce]
      rw [hflag, Bool.or_assoc]

/-- `any` respects pointwise-equal predicates. -/
theorem any_congr_mem {α : Type} {f g : α → Bool} :
    ∀ {l : List α}, (∀ x ∈ l, f x = g x) → l.any f = l.any g := by
  intro l
  induction l with
  | nil => intro _; rfl
  | cons x t ih =>
    intro h
    rw [List.any_cons, List.any_cons, h x (by simp),
      ih (fun y hy => h y (List.mem_cons_of_mem _ hy))]

/-- Against a snapshot extracted from the tree's own archive, `Lstat` on a
path whose proper ancestors are directories of the tree never aborts. -/
theorem xlstat_snap_ok (rootName : String) (src : SrcFS) (hwf : WFSrc src)
    (p : List String)
    (hanc : ∀ q, q <+: p → q ≠ [] → q ≠ p → hasDirAt src q = true) :
    xlstat (extractArchive (createArchive rootName src)) p =
      .ok (xfind (extractArchive (createArchive rootName src)) p) := by
  unfold xlstat
  rw [if_neg ?_]
  intro hany
  rw [List.any_eq_true] at hany
  rcases hany with ⟨q, hqmem, hcond⟩
  simp only [Bool.and_eq_true, decide_eq_true_eq] at hcond
  obtain ⟨⟨hq1, hq2⟩, hq3⟩ := hcond
  have hqp : q <+: p := (List.mem_inits q p).mp hqmem
  have hdir := hanc q hqp hq1 hq2
  cases hx : xfind (extractArchive (createArchive rootName src)) q with
  | none => rw [hx] at hq3; simp [isFileOpt] at hq3
  | some v =>
    cases v with
    | dir => rw [hx] at hq3; simp [isFileOpt] at hq3
    | file c =>
      have hkept := (extract_create_file rootName src hwf q c).mp hx
      rcases (fileAt_iff src q c).mp hkept.2.1 with ⟨mf, hmf⟩
      rcases (hasDirAt_iff src q).mp hdir with ⟨md, hmd⟩
      have := nodup_proj_eq Prod.fst hwf.nodupKeys hmf hmd rfl
      simp at this

/-- A visited directory of the tree contributes no change and no error. -/
theorem checkOne_dir_ok (rootName : String) (src : SrcFS) (hwf : WFSrc src)
    (t : Timestamp) (p : List String) (m : Timestamp)
    (hmem : (p, SrcNode.dir m) ∈ src)
    (hunder : underExcludedB rootName src p = false) :
    checkOne rootName (extractArchive (createArchive rootName src)) t p
      (SrcNode.dir m) = .ok false := by
  simp only [checkOne]
  by_cases hname : pathName rootName p = "node_modules"
  · rw [if_pos hname]
  · rw [if_neg hname]
    by_cases hp : p = []
    · rw [if_pos hp]
    · rw [if_neg hp]
      have hanc : ∀ q, q <+: p → q ≠ [] → q ≠ p → hasDirAt src q = true :=
        fun q h1 h2 h3 =>
          ancestor_dir src hwf p.length p _ (Nat.le_refl _) hmem q h1 h3 h2
      rw [xlstat_snap_ok rootName src hwf p hanc,
        (extract_create_dir rootName src hwf p).mpr
          ⟨hp, (hasDirAt_iff src p).mpr ⟨m, hmem⟩, hunder, hname⟩]

/-- A visited regular file whose snapshot counterpart holds content `c`
contributes exactly the mtime/size check. -/
theorem checkOne_file_ok (rootName : String) (src : SrcFS) (hwf : WFSrc src)
    (t : Timestamp) (p : List String) (c : List Nat) (c2 : List Nat)
    (m2 : Timestamp) (hkept : FileKept rootName src p c)
    (hanc : ∀ q, q <+: p → q ≠ [] → q ≠ p → hasDirAt src q = true) :
    checkOne rootName (extractArchive (createArchive rootName src)) t p
      (SrcNode.file c2 m2) =
      .ok (m2.after t || decide (c2.length ≠ c.length)) := by
  simp only [checkOne]
  rw [if_neg hkept.1, xlstat_snap_ok rootName src hwf p hanc,
    (extract_create_file rootName src hwf p c).mpr hkept]

/-- Any source node at a visited path of the tree yields a non-aborting
check against the tree's own snapshot (the node may differ from the tree's
— only the path's ancestry matters). -/
theorem checkOne_isOk (rootName : String) (src : SrcFS) (hwf : WFSrc src)
    (t : Timestamp) (q : List String) (n n0 : SrcNode)
    (hmem : (q, n0) ∈ src) :
    ∃ b, checkOne rootName (extractArchive (createArchive rootName src)) t q n =
      .ok b := by
  have hanc : ∀ r, r <+: q → r ≠ [] → r ≠ q → hasDirAt src r = true :=
    fun r h1 h2 h3 =>
      ancestor_dir src hwf q.length q n0 (Nat.le_refl _) hmem r h1 h3 h2
  rcases n with ⟨c2, m2⟩ | m2 | tgt
  · by_cases hq : q = []
    · exact ⟨false, by simp [checkOne, hq]⟩
    · simp only [checkOne]
      rw [if_neg hq, xlstat_snap_ok rootName src hwf q hanc]
      cases hx : xfind (extractArchive (createArchive rootName src)) q with
      | none => exact ⟨true, rfl⟩
      | some v =>
        cases v with
        | dir => exact ⟨true, rfl⟩
        | file c3 => exact ⟨_, rfl⟩
  · by_cases hname : pathName rootName q = "node_modules"
    · exact ⟨false, by simp [checkOne, hname]⟩
    · by_cases hq : q = []
      · exact ⟨false, by simp [checkOne, hname, hq]⟩
      · simp only [checkOne]
        rw [if_neg hname, if_neg hq, xlstat_snap_ok rootName src hwf q hanc]
        cases hx : xfind (extractArchive (createArchive rootName src)) q with
        | none => exact ⟨true, rfl⟩
        | some v =>
          cases v with
          | dir => exact ⟨false, rfl⟩
          | file c3 => exact ⟨true, rfl⟩
  · exact ⟨false, rfl⟩

/-- "No file of the tree was modified after `t`" — the premise of comparing
an unmodified tree against its own just-created archive. -/
def noneNewer (src : SrcFS) (t : Timestamp) : Bool :=
  src.all (fun e =>
    match e.2 with
    | SrcNode.file _ mm => !(mm.after t)
    | _ => true)

/-- Walking an unmodified tree against the snapshot extracted from its own
archive flags no change and never aborts. -/
theorem compare_self_core (rootName : String) (src : SrcFS) (hwf : WFSrc src)
    (t : Timestamp) (hmt : noneNewer src t = true) :
    compareFold rootName (extractArchive (createArchive rootName src)) t
      (walkVisited rootName src) false = .ok false := by
  have hall : ∀ e ∈ walkVisited rootName src,
      checkOne rootName (extractArchive (createArchive rootName src)) t e.1
        e.2 = .ok false := by
    intro e he
    rw [walkVisited, List.mem_filter, Bool.not_eq_true'] at he
    rcases e with ⟨p, n⟩
    rcases n with ⟨c, m⟩ | m | tgt
    · by_cases hp : p = []
      · simp [checkOne, hp]
      · have hanc : ∀ q, q <+: p → q ≠ [] → q ≠ p → hasDirAt src q = true :=
          fun q h1 h2 h3 =>
            ancestor_dir src hwf p.length p _ (Nat.le_refl _) he.1 q h1 h3 h2
        have hkept : FileKept rootName src p c :=
          ⟨hp, (fileAt_iff src p c).mpr ⟨m, he.1⟩, he.2⟩
        rw [checkOne_file_ok rootName src hwf t p c c m hkept hanc]
        have hafter : m.after t = false := by
          have := List.all_eq_true.mp hmt (p, SrcNode.file c m) he.1
          simpa using this
        rw [hafter]
        simp
    · exact checkOne_dir_ok rootName src hwf t p m he.1 he.2
    · rfl
  rw [compareFold_eq rootName _ t _ false
    (fun e he => by rw [hall e he]; simp)]
  have hany : (walkVisited rootName src).any
      (checkFlag rootName (extractArchive (createArchive rootName src)) t) =
      false := by
    rw [List.any_eq_false]
    intro e he
    simp [checkFlag, hall e he]
  rw [hany]
  rfl

/-- Replacing the node stored at `p` (Go: the tree after an in-place edit
of one file). -/
def srcUpdate (src : SrcFS) (p : List String) (n : SrcNode) : SrcFS :=
  src.map (fun e => if e.1 = p then (p, n) else e)

/-- Updating preserves the path set. -/
theorem srcUpdate_fst (src : SrcFS) (p : List String) (n : SrcNode) :
    (srcUpdate src p n).map Prod.fst = src.map Prod.fst := by
  unfold srcUpdate
  rw [List.map_map]
  apply List.map_congr_left
  intro e _
  by_cases h : e.1 = p <;> simp [h, Function.comp]

/-- Replacing a file node by a file node leaves the directory structure
untouched. -/
theorem srcUpdate_hasDirAt (src : SrcFS) (hwf : WFSrc src) (p : List String)
    (c : List Nat) (m : Timestamp) (hmem : (p, SrcNode.file c m) ∈ src)
    (c' : List Nat) (m' : Timestamp) :
    ∀ q, hasDirAt (srcUpdate src p (SrcNode.file c' m')) q = hasDirAt src q := by
  intro q
  unfold hasDirAt srcUpdate
  rw [List.any_map]
  apply any_congr_mem
  intro e he
  by_cases h : e.1 = p
  · have hee : e = (p, SrcNode.file c m) :=
      nodup_proj_eq Prod.fst hwf.nodupKeys he hmem h
    rw [hee]
    simp [Function.comp, isDirNode]
  · simp [Function.comp, h]

/-- Likewise for the skipped-directory classification. -/
theorem srcUpdate_under (rootName : String) (src : SrcFS) (hwf : WFSrc src)
    (p : List String) (c : List Nat) (m : Timestamp)
    (hmem : (p, SrcNode.file c m) ∈ src) (c' : List Nat) (m' : Timestamp) :
    ∀ q, underExcludedB rootName (srcUpdate src p (SrcNode.file c' m')) q =
      underExcludedB rootName src q := by
  intro q
  unfold underExcludedB
  apply any_congr_mem
  intro r _
  unfold isExcludedDirB
  rw [srcUpdate_hasDirAt src hwf p c m hmem c' m' r]

/-- Updating a file node preserves well-formedness. -/
theorem srcUpdate_wf (src : SrcFS) (hwf : WFSrc src) (p : List String)
    (c : List Nat) (m : Timestamp) (hmem : (p, SrcNode.file c m) ∈ src)
    (c' : List Nat) (m' : Timestamp) :
    WFSrc (srcUpdate src p (SrcNode.file c' m')) := by
  constructor
  · rw [srcUpdate_fst]
    exact hwf.nodupKeys
  · intro e' he' hne
    rcases List.mem_map.mp he' with ⟨e, he, rfl⟩
    have hfst : (if e.1 = p then (p, SrcNode.file c' m') else e).1 = e.1 := by
      by_cases h : e.1 = p <;> simp [h]
    rw [hfst] at hne
    rw [hfst, srcUpdate_hasDirAt src hwf p c m hmem c' m']
    exact hwf.parentDir e he hne

/-- The visited paths of the updated tree are the updated visited paths. -/
theorem srcUpdate_visited (rootName : String) (src : SrcFS) (hwf : WFSrc src)
    (p : List String) (c : List Nat) (m : Timestamp)
    (hmem : (p, SrcNode.file c m) ∈ src) (c' : List Nat) (m' : Timestamp) :
    walkVisited rootName (srcUpdate src p (SrcNode.file c' m')) =
      (walkVisited rootName src).map
        (fun e => if e.1 = p then (p, SrcNode.file c' m') else e) := by
  unfold walkVisited srcUpdate
  rw [List.filter_map]
  congr 1
  apply List.filter_congr
  intro e _
  have hfst : ((fun e : List String × SrcNode =>
      if e.1 = p then (p, SrcNode.file c' m') else e) e).1 = e.1 := by
    by_cases h : e.1 = p <;> simp [h]
  simp only [Function.comp_apply, hfst]
  rw [show List.map (fun e : List String × SrcNode =>
      if e.1 = p then (p, SrcNode.file c' m') else e) src =
      srcUpdate src p (SrcNode.file c' m') from rfl,
    srcUpdate_under rootName src hwf p c m hmem c' m']

/-- Walking a tree with one file's content length changed against the
snapshot of the original archive flags a change and never aborts. -/
theorem compare_update_core (rootName : String) (src : SrcFS) (hwf : WFSrc src)
    (t : Timestamp) (p : List String) (c : List Nat) (m : Timestamp)
    (c' : List Nat) (m' : Timestamp)
    (hmem : (p, SrcNode.file c m) ∈ src)
    (hunder : underExcludedB rootName src p = false) (hp : p ≠ [])
    (hlen : c'.length ≠ c.length) :
    compareFold rootName (extractArchive (createArchive rootName src)) t
      (walkVisited rootName (srcUpdate src p (SrcNode.file c' m'))) false =
      .ok true := by
  rw [srcUpdate_visited rootName src hwf p c m hmem c' m']
  have hnoerr : ∀ e ∈ (walkVisited rootName src).map
      (fun e => if e.1 = p then (p, SrcNode.file c' m') else e),
      checkOne rootName (extractArchive (createArchive rootName src)) t e.1
        e.2 ≠ Except.error () := by
    intro e' he'
    rcases List.mem_map.mp he' with ⟨e, he, rfl⟩
    rw [walkVisited, List.mem_filter, Bool.not_eq_true'] at he
    by_cases h : e.1 = p
    · rw [if_pos h]
      rcases checkOne_isOk rootName src hwf t p (SrcNode.file c' m')
        (SrcNode.file c m) hmem with ⟨b, hb⟩
      rw [hb]
      simp
    · rw [if_neg h]
      rcases checkOne_isOk rootName src hwf t e.1 e.2 e.2 he.1 with ⟨b, hb⟩
      rw [hb]
      simp
  rw [compareFold_eq rootName _ t _ false hnoerr]
  have hmemv : (p, SrcNode.file c m) ∈ walkVisited rootName src := by
    rw [walkVisited, List.mem_filter, Bool.not_eq_true']
    exact ⟨hmem, hunder⟩
  have hanc : ∀ q, q <+: p → q ≠ [] → q ≠ p → hasDirAt src q = true :=
    fun q h1 h2 h3 =>
      ancestor_dir src hwf p.length p _ (Nat.le_refl _) hmem q h1 h3 h2
  have hkept : FileKept rootName src p c :=
    ⟨hp, (fileAt_iff src p c).mpr ⟨m, hmem⟩, hunder⟩
  have hflag : checkFlag rootName (extractArchive (createArchive rootName src))
      t (p, SrcNode.file c' m') = true := by
    unfold checkFlag
    rw [checkOne_file_ok rootName src hwf t p c c' m' hkept hanc]
    simp [hlen]
  have hany : ((walkVisited rootName src).map
      (fun e => if e.1 = p then (p, SrcNode.file c' m') else e)).any
      (checkFlag rootName (extractArchive (createArchive rootName src)) t) =
      true := by
    rw [List.any_eq_true]
    refine ⟨(p, SrcNode.file c' m'), ?_, hflag⟩
    refine List.mem_map.mpr ⟨(p, SrcNode.file c m), hmemv, ?_⟩
    simp
  rw [hany]
  rfl

/-- **C2**: `compareWithLastBackup` reports changed = `true` when no prior
file-archive artifact exists (missing backup directory or no valid
`files_*` entry); for a tree none of whose files were modified after the
archive timestamp, re-compared against its own just-created archive, it
reports changed = `false`; and for the same tree with one archived regular
file's content length altered it reports changed = `true`. -/
theorem compareWithLastBackup_spec :
    (∀ (rootName : String) (bd : BackupDir) (src : SrcFS),
      bd.present = false ∨ findLatest bd.entries = none →
      compareWithLastBackup rootName bd src = .ok true) ∧
    (∀ (rootName : String) (bd : BackupDir) (src : SrcFS) (e : BEntry)
        (t : Timestamp), WFSrc src → bd.present = true →
      findLatest bd.entries = some (e, t) →
      e.archive = createArchive rootName src →
      noneNewer src t = true →
      compareWithLastBackup rootName bd src = .ok false) ∧
    (∀ (rootName : String) (bd : BackupDir) (src : SrcFS) (e : BEntry)
        (t : Timestamp) (p : List String) (c c' : List Nat)
        (m m' : Timestamp), WFSrc src → bd.present = true →
      findLatest bd.entries = some (e, t) →
      e.archive = createArchive rootName src →
      (p, SrcNode.file c m) ∈ src →
      underExcludedB rootName src p = false → p ≠ [] →
      c'.length ≠ c.length →
      compareWithLastBackup rootName bd
        (srcUpdate src p (SrcNode.file c' m')) = .ok true) := by
  refine ⟨?_, ?_, ?_⟩
  · rintro rootName bd src (h | h)
    · simp [compareWithLastBackup, h]
    · by_cases hb : bd.present <;> simp [compareWithLastBackup, h, hb]
  · intro rootName bd src e t hwf hb hfl harch hmt
    simp only [compareWithLastBackup, hb, Bool.not_true, Bool.false_eq_true,
      if_false, hfl]
    rw [harch]
    exact compare_self_core rootName src hwf t hmt
  · intro rootName bd src e t p c c' m m' hwf hb hfl harch hmem hunder hp hlen
    simp only [compareWithLastBackup, hb, Bool.not_true, Bool.false_eq_true,
      if_false, hfl]
    rw [harch]
    exact compare_update_core rootName src hwf t p c m c' m' hmem hunder hp hlen

/-- A minimal tree for the change-detector witness. -/
def simpleTree : SrcFS :=
  [([], SrcNode.dir ⟨2025, 2, 11, 13, 0, 0⟩),
   (["a"], SrcNode.file [1, 2] ⟨2025, 2, 11, 12, 0, 0⟩)]

/-- A backup directory holding the just-created archive of `simpleTree`. -/
def simpleBackupDir : BackupDir :=
  ⟨true, [⟨"files_2025-02-11_130000.tar.gz", false,
    createArchive "site" simpleTree⟩]⟩

/-- Witness for C2 at concrete trees and backup directories. -/
theorem compareWithLastBackup_spec_witness :
    compareWithLastBackup "site" ⟨false, []⟩ simpleTree = .ok true ∧
    compareWithLastBackup "site" simpleBackupDir simpleTree = .ok false ∧
    compareWithLastBackup "site" simpleBackupDir
      (srcUpdate simpleTree ["a"]
        (SrcNode.file [1, 2, 3] ⟨2025, 2, 11, 14, 0, 0⟩)) = .ok true :=
  ⟨compareWithLastBackup_spec.1 "site" ⟨false, []⟩ simpleTree (Or.inl rfl),
   compareWithLastBackup_spec.2.1 "site" simpleBackupDir simpleTree
     ⟨"files_2025-02-11_130000.tar.gz", false, createArchive "site" simpleTree⟩
     ⟨2025, 2, 11, 13, 0, 0⟩ ⟨by decide, by decide⟩ rfl (by decide) rfl
     (by decide),
   compareWithLastBackup_spec.2.2 "site" simpleBackupDir simpleTree
     ⟨"files_2025-02-11_130000.tar.gz", false, createArchive "site" simpleTree⟩
     ⟨2025, 2, 11, 13, 0, 0⟩ ["a"] [1, 2] [1, 2, 3] ⟨2025, 2, 11, 12, 0, 0⟩
     ⟨2025, 2, 11, 14, 0, 0⟩ ⟨by decide, by decide⟩ rfl (by decide) rfl
     (by decide) (by decide) (by decide) (by decide)⟩
